import Mathlib

/-!
supergameherm: the control unit (`ctl_unit.c`) and the joypad (`input.c`).

A shallow embedding of the instruction handlers, the dispatch table, `init_ctl`
and `execute` of `ctl_unit.c`, of `joypad_read`, `joypad_write` and
`joypad_signal` of `input.c`, and theorems about them.

C implementation parameters.  The source leaves three things to the C
implementation; the embedding fixes them as on the x86 / x86-64 gcc and clang
targets the emulator is built for:

* the host is little-endian, so `a = ((char *)&af) + 1` is the HIGH byte of `af`
  and `f = (char *)&af` is its LOW byte (likewise `b`/`c`, `d`/`e`, `h`/`l`);
* plain `char` is a signed 8-bit type; converting an out-of-range value to it
  keeps the low 8 bits;
* `int` is 32 bits wide, two's complement; `<<` on a negative `int` shifts the
  bit pattern.

Machine integers are natural numbers holding the bit pattern, with explicit
reductions modulo `2^8`, `2^16` and `2^32`.  A `char` object is stored as its
8-bit pattern `0..255`; `int_of_char` is the integer promotion (sign extension to
the 32-bit pattern) that C applies before every arithmetic or bitwise operator.
-/

namespace SGHerm

/-! ## Machine integers -/

/-- Conversion to `unsigned char` / `uint8_t`: keep the low 8 bits. -/
def u8 (n : Nat) : Nat := n % 256

/-- Conversion to `uint16_t`: keep the low 16 bits. -/
def u16 (n : Nat) : Nat := n % 65536

/-- Conversion of an `int` bit pattern to plain `char`: keep the low 8 bits. -/
def char_of_int (x : Nat) : Nat := x % 256

/-- Integer promotion of a plain (signed) `char` with bit pattern `b`: the 32-bit
two's-complement pattern of its value, i.e. sign extension. -/
def int_of_char (b : Nat) : Nat :=
  if b % 256 < 128 then b % 256 else b % 256 + 4294967040

/-- The operator `~` on an `int` bit pattern. -/
def int_not (x : Nat) : Nat := 4294967295 - x % 4294967296

/-- The operator `<<` on an `int` bit pattern. -/
def int_shl (x n : Nat) : Nat := (x <<< n) % 4294967296

/-- The value of an `int` bit pattern. -/
def int_val (x : Nat) : Int :=
  if x % 4294967296 < 2147483648 then (x % 4294967296 : Nat)
  else ((x % 4294967296 : Nat) : Int) - 4294967296

/-- The operator `<` on two `int` bit patterns (a signed comparison). -/
def int_lt (x y : Nat) : Bool := decide (int_val x < int_val y)

/-- Zero Flag -/
def FLAG_Z : Nat := 0x80
/-- Subtract Flag -/
def FLAG_N : Nat := 0x40
/-- Half-Carry Flag -/
def FLAG_H : Nat := 0x20
/-- Carry Flag -/
def FLAG_C : Nat := 0x10

/-! ## Memory bus

`memory.h` is not part of the sources at hand: the handlers only call
`mem_read8`, `mem_write8` and `mem_write16`.  The bus is therefore a parameter of
every handler; the theorems hold for every bus. -/

/-- The memory bus the control unit is linked against: the state type `M` of the
bus and its three entry points. -/
structure Bus (M : Type) where
  /-- Entry point `read8(addr) -> byte`. -/
  read8 : M → Nat → Nat
  /-- Entry point `write8(addr, byte)`. -/
  write8 : M → Nat → Nat → M
  /-- Entry point `write16(addr, word)`. -/
  write16 : M → Nat → Nat → M

/-- Call of `mem_read8(addr)`: the address is passed as a 16-bit value and the
result is a byte. -/
def mem_read8 {M : Type} (B : Bus M) (m : M) (addr : Nat) : Nat :=
  u8 (B.read8 m (u16 addr))

/-- Call of `mem_write8(addr, val)`. -/
def mem_write8 {M : Type} (B : Bus M) (m : M) (addr val : Nat) : M :=
  B.write8 m (u16 addr) (u8 val)

/-- Call of `mem_write16(addr, val)`. -/
def mem_write16 {M : Type} (B : Bus M) (m : M) (addr val : Nat) : M :=
  B.write16 m (u16 addr) (u16 val)

/-- Modelled from the spec: the memory bus of `memory.h`, which is not among the
sources, restricted to plain storage (work RAM, high RAM): one byte per 16-bit
address, `read8` returns the stored byte, `write8` replaces it, and `write16`
writes the low byte at `addr` and then the high byte at `addr + 1`
(little-endian).  Used for the concrete examples only. -/
def flatBus : Bus (Nat → Nat) where
  read8 := fun m addr => m addr
  write8 := fun m addr val => fun x => if x = addr then val else m x
  write16 := fun m addr val => fun x =>
    if x = (addr + 1) % 65536 then val / 256 % 256
    else if x = addr then val % 256 else m x

/-- Modelled from the spec: `read16(addr)` of the memory bus, little-endian: low
byte at `addr`, high byte at `addr + 1`. -/
def mem_read16 {M : Type} (B : Bus M) (m : M) (addr : Nat) : Nat :=
  mem_read8 B m addr + 256 * mem_read8 B m (addr + 1)

/-- A plain-storage memory image holding `bytes` from address `base` on and `0`
everywhere else. -/
def image (base : Nat) (bytes : List Nat) : Nat → Nat :=
  fun addr => if base ≤ addr then bytes.getD (addr - base) 0 else 0

/-! ## Register file -/

/-- The globals of `ctl_unit.c`: the six 16-bit registers, `flag_reg`,
`toggle_int_on_next`, `interrupts`, and the state of the memory bus. -/
structure State (M : Type) where
  af : Nat
  bc : Nat
  de : Nat
  hl : Nat
  sp : Nat
  pc : Nat
  flag_reg : Nat
  toggle_int_on_next : Bool
  interrupts : Bool
  mem : M

/-- The byte at offset 1 of a 16-bit word (its high byte on a little-endian host). -/
def hi_byte (w : Nat) : Nat := w / 256 % 256

/-- The byte at offset 0 of a 16-bit word (its low byte on a little-endian host). -/
def lo_byte (w : Nat) : Nat := w % 256

/-- Store the `char` pattern `v` into the byte at offset 1 of the word `w`. -/
def set_hi (w v : Nat) : Nat := (v % 256) * 256 + w % 256

/-- Store the `char` pattern `v` into the byte at offset 0 of the word `w`. -/
def set_lo (w v : Nat) : Nat := (w / 256 % 256) * 256 + v % 256

namespace State

variable {M : Type}

/-- Value of `*a`, with `a = ((char *)&af) + 1`. -/
def a (s : State M) : Nat := hi_byte s.af
/-- Value of `*f`, with `f = (char *)&af`. -/
def f (s : State M) : Nat := lo_byte s.af
/-- Value of `*b`, with `b = ((char *)&bc) + 1`. -/
def b (s : State M) : Nat := hi_byte s.bc
/-- Value of `*c`, with `c = (char *)&bc`. -/
def c (s : State M) : Nat := lo_byte s.bc
/-- Value of `*d`, with `d = ((char *)&de) + 1`. -/
def d (s : State M) : Nat := hi_byte s.de
/-- Value of `*e`, with `e = (char *)&de`. -/
def e (s : State M) : Nat := lo_byte s.de
/-- Value of `*h`, with `h = ((char *)&hl) + 1`. -/
def h (s : State M) : Nat := hi_byte s.hl
/-- Value of `*l`, with `l = (char *)&hl`. -/
def l (s : State M) : Nat := lo_byte s.hl

/-- Assignment `*a = v`. -/
def set_a (s : State M) (v : Nat) : State M := { s with af := set_hi s.af v }
/-- Assignment `*f = v`. -/
def set_f (s : State M) (v : Nat) : State M := { s with af := set_lo s.af v }
/-- Assignment `*b = v`. -/
def set_b (s : State M) (v : Nat) : State M := { s with bc := set_hi s.bc v }
/-- Assignment `*c = v`. -/
def set_c (s : State M) (v : Nat) : State M := { s with bc := set_lo s.bc v }
/-- Assignment `*d = v`. -/
def set_d (s : State M) (v : Nat) : State M := { s with de := set_hi s.de v }
/-- Assignment `*e = v`. -/
def set_e (s : State M) (v : Nat) : State M := { s with de := set_lo s.de v }
/-- Assignment `*h = v`. -/
def set_h (s : State M) (v : Nat) : State M := { s with hl := set_hi s.hl v }
/-- Assignment `*l = v`. -/
def set_l (s : State M) (v : Nat) : State M := { s with hl := set_lo s.hl v }

/-- Increment `pc++` / `++pc` on the `uint16_t` program counter. -/
def inc_pc (s : State M) : State M := { s with pc := u16 (s.pc + 1) }

end State

/-! ## Instruction handlers -/

section Handlers

variable {M : Type}

/-- NOP (0x00) -/
def nop (_B : Bus M) (s : State M) : State M :=
  s.inc_pc

/-- JR n (0x18): `unsigned char to_add = mem_read8(pc + 1); pc += to_add;` -/
def jr_imm8 (B : Bus M) (s : State M) : State M :=
  let to_add := u8 (mem_read8 B s.mem (s.pc + 1))
  { s with pc := u16 (s.pc + to_add) }

/-- JR NZ,n (0x20): `pc += (flag_reg & FLAG_Z) ? 2 : to_add;` -/
def jr_nz_imm8 (B : Bus M) (s : State M) : State M :=
  let to_add := u8 (mem_read8 B s.mem (s.pc + 1))
  { s with pc := u16 (s.pc + (if int_of_char s.flag_reg &&& FLAG_Z ≠ 0 then 2 else to_add)) }

/-- JR Z,n (0x28): `pc += (flag_reg & FLAG_Z) ? to_add : 2;` -/
def jr_z_imm8 (B : Bus M) (s : State M) : State M :=
  let to_add := u8 (mem_read8 B s.mem (s.pc + 1))
  { s with pc := u16 (s.pc + (if int_of_char s.flag_reg &&& FLAG_Z ≠ 0 then to_add else 2)) }

/-- LD A,n (0x3E): `*a = mem_read8(++pc); pc++;` -/
def ld_a_imm8 (B : Bus M) (s : State M) : State M :=
  let s1 := s.inc_pc
  let s2 := s1.set_a (char_of_int (mem_read8 B s1.mem s1.pc))
  s2.inc_pc

/-- LD B,A (0x47): `*b = *a; pc++;` -/
def ld_b_a (_B : Bus M) (s : State M) : State M :=
  (s.set_b s.a).inc_pc

/-- LD C,A (0x4F): `*c = *a; pc++;` -/
def ld_c_a (_B : Bus M) (s : State M) : State M :=
  (s.set_c s.a).inc_pc

/-- LD D,A (0x57): `*d = *a; pc++;` -/
def ld_d_a (_B : Bus M) (s : State M) : State M :=
  (s.set_d s.a).inc_pc

/-- LD E,A (0x5F): `*e = *a; pc++;` -/
def ld_e_a (_B : Bus M) (s : State M) : State M :=
  (s.set_e s.a).inc_pc

/-- LD H,A (0x67): `*h = *a; pc++;` -/
def ld_h_a (_B : Bus M) (s : State M) : State M :=
  (s.set_h s.a).inc_pc

/-- LD L,A (0x6F): `*l = *a; pc++;` -/
def ld_l_a (_B : Bus M) (s : State M) : State M :=
  (s.set_l s.a).inc_pc

/-- The body shared by XOR B .. XOR L:
`*a ^= to_xor; flag_reg = 0; if(*a == 0) flag_reg |= FLAG_Z; pc++;` -/
def xor_common (to_xor : Nat) (s : State M) : State M :=
  let s1 := s.set_a (char_of_int (int_of_char s.a ^^^ int_of_char to_xor))
  let s2 := { s1 with flag_reg := char_of_int 0 }
  let s3 :=
    if int_of_char s2.a = 0 then
      { s2 with flag_reg := char_of_int (int_of_char s2.flag_reg ||| FLAG_Z) }
    else s2
  s3.inc_pc

/-- XOR B (0xA8) -/
def xor_b (_B : Bus M) (s : State M) : State M := xor_common s.b s
/-- XOR C (0xA9) -/
def xor_c (_B : Bus M) (s : State M) : State M := xor_common s.c s
/-- XOR D (0xAA) -/
def xor_d (_B : Bus M) (s : State M) : State M := xor_common s.d s
/-- XOR E (0xAB) -/
def xor_e (_B : Bus M) (s : State M) : State M := xor_common s.e s
/-- XOR H (0xAC) -/
def xor_h (_B : Bus M) (s : State M) : State M := xor_common s.h s
/-- XOR L (0xAD) -/
def xor_l (_B : Bus M) (s : State M) : State M := xor_common s.l s

/-- XOR A (0xAF): `*a = 0; flag_reg = FLAG_Z; pc++;` -/
def xor_a (_B : Bus M) (s : State M) : State M :=
  let s1 := s.set_a (char_of_int 0)
  let s2 := { s1 with flag_reg := char_of_int FLAG_Z }
  s2.inc_pc

/-- JP nn (0xC3):
`char lsb = mem_read8(++pc); char msb = mem_read8(++pc); pc = (msb<<8 | lsb);` -/
def jp_imm16 (B : Bus M) (s : State M) : State M :=
  let s1 := s.inc_pc
  let lsb := char_of_int (mem_read8 B s1.mem s1.pc)
  let s2 := s1.inc_pc
  let msb := char_of_int (mem_read8 B s2.mem s2.pc)
  { s2 with pc := u16 (int_shl (int_of_char msb) 8 ||| int_of_char lsb) }

/-- CB .. (0xCB): `char opcode = mem_read8(++pc); pc++;` (the byte read is not
used). -/
def cb_dispatch (B : Bus M) (s : State M) : State M :=
  let s1 := s.inc_pc
  let _opcode := char_of_int (mem_read8 B s1.mem s1.pc)
  s1.inc_pc

/-- CALL nn (0xCD):
`lsb = mem_read8(++pc); msb = mem_read8(++pc); sp -= 2; mem_write16(sp, ++pc);
pc = (msb<<8 | lsb);` -/
def call_imm16 (B : Bus M) (s : State M) : State M :=
  let s1 := s.inc_pc
  let lsb := char_of_int (mem_read8 B s1.mem s1.pc)
  let s2 := s1.inc_pc
  let msb := char_of_int (mem_read8 B s2.mem s2.pc)
  let s3 := { s2 with sp := u16 (s2.sp + 65536 - 2) } -- sp - 2, reduced modulo 2^16
  let s4 := s3.inc_pc
  let s5 := { s4 with mem := mem_write16 B s4.mem s4.sp s4.pc }
  { s5 with pc := u16 (int_shl (int_of_char msb) 8 ||| int_of_char lsb) }

/-- LDH n,A (0xE0):
`uint16_t write = mem_read8(++pc); write += 0xFF00; mem_write8(write, *a); pc++;` -/
def ldh_imm8_a (B : Bus M) (s : State M) : State M :=
  let s1 := s.inc_pc
  let write := u16 (mem_read8 B s1.mem s1.pc)
  let write := u16 (write + 0xFF00)
  let s2 := { s1 with mem := mem_write8 B s1.mem write s1.a }
  s2.inc_pc

/-- LD (nn),A (0xEA):
`lsb = mem_read8(++pc); msb = mem_read8(++pc); uint16_t loc = (msb<<8) | lsb;
mem_write8(loc, *a); pc++;` -/
def ld_d16_a (B : Bus M) (s : State M) : State M :=
  let s1 := s.inc_pc
  let lsb := char_of_int (mem_read8 B s1.mem s1.pc)
  let s2 := s1.inc_pc
  let msb := char_of_int (mem_read8 B s2.mem s2.pc)
  let loc := u16 (int_shl (int_of_char msb) 8 ||| int_of_char lsb)
  let s3 := { s2 with mem := mem_write8 B s2.mem loc s2.a }
  s3.inc_pc

/-- LDH A,nn (0xF0):
`unsigned char loc = mem_read8(++pc); *a = mem_read8(0xFF00 + loc); pc++;` -/
def ldh_a_imm8 (B : Bus M) (s : State M) : State M :=
  let s1 := s.inc_pc
  let loc := u8 (mem_read8 B s1.mem s1.pc)
  let s2 := s1.set_a (char_of_int (mem_read8 B s1.mem (0xFF00 + loc)))
  s2.inc_pc

/-- DI (0xF3): `toggle_int_on_next = true; pc++;` -/
def di (_B : Bus M) (s : State M) : State M :=
  State.inc_pc { s with toggle_int_on_next := true }

/-- EI (0xFB): `toggle_int_on_next = true; pc++;` -/
def ei (_B : Bus M) (s : State M) : State M :=
  State.inc_pc { s with toggle_int_on_next := true }

/-- CP n (0xFE).  The two `debug(...)` calls only print and are left out.
```
cmp = mem_read8(++pc);
flag_reg |= FLAG_N;
flag_reg &= ~FLAG_H | ~FLAG_C;
if(*a == cmp) { flag_reg |= FLAG_Z; }
else { flag_reg &= ~FLAG_Z;
       if(*a < cmp) { flag_reg |= FLAG_C; } else { flag_reg |= FLAG_H; } }
pc++;
``` -/
def cp_imm8 (B : Bus M) (s : State M) : State M :=
  let s1 := s.inc_pc
  let cmp := char_of_int (mem_read8 B s1.mem s1.pc)
  let f1 := char_of_int (int_of_char s1.flag_reg ||| FLAG_N)
  let f2 := char_of_int (int_of_char f1 &&& (int_not FLAG_H ||| int_not FLAG_C))
  let f3 :=
    if int_of_char s1.a = int_of_char cmp then
      char_of_int (int_of_char f2 ||| FLAG_Z)
    else
      let f4 := char_of_int (int_of_char f2 &&& int_not FLAG_Z)
      if int_lt (int_of_char s1.a) (int_of_char cmp) then
        char_of_int (int_of_char f4 ||| FLAG_C)
      else
        char_of_int (int_of_char f4 ||| FLAG_H)
  State.inc_pc { s1 with flag_reg := f3 }

/-- The table `opcode_t handlers[0x100]`: `none` stands for a `NULL` entry. -/
def handlers (B : Bus M) (opcode : Nat) : Option (State M → State M) :=
  if opcode = 0x00 then some (nop B)
  else if opcode = 0x18 then some (jr_imm8 B)
  else if opcode = 0x20 then some (jr_nz_imm8 B)
  else if opcode = 0x28 then some (jr_z_imm8 B)
  else if opcode = 0x3E then some (ld_a_imm8 B)
  else if opcode = 0x47 then some (ld_b_a B)
  else if opcode = 0x4F then some (ld_c_a B)
  else if opcode = 0x57 then some (ld_d_a B)
  else if opcode = 0x5F then some (ld_e_a B)
  else if opcode = 0x67 then some (ld_h_a B)
  else if opcode = 0x6F then some (ld_l_a B)
  else if opcode = 0xA8 then some (xor_b B)
  else if opcode = 0xA9 then some (xor_c B)
  else if opcode = 0xAA then some (xor_d B)
  else if opcode = 0xAB then some (xor_e B)
  else if opcode = 0xAC then some (xor_h B)
  else if opcode = 0xAD then some (xor_l B)
  else if opcode = 0xAF then some (xor_a B)
  else if opcode = 0xC3 then some (jp_imm16 B)
  else if opcode = 0xCB then some (cb_dispatch B)
  else if opcode = 0xCD then some (call_imm16 B)
  else if opcode = 0xE0 then some (ldh_imm8_a B)
  else if opcode = 0xEA then some (ld_d16_a B)
  else if opcode = 0xF0 then some (ldh_a_imm8 B)
  else if opcode = 0xF3 then some (di B)
  else if opcode = 0xFB then some (ei B)
  else if opcode = 0xFE then some (cp_imm8 B)
  else none

end Handlers

/-! ## Initialisation and the execution step -/

/-- Modelled from the spec: the system variants of `params.h`, which is not among
the sources: the original model, the Color model, the Super model and the
portable model, the four case labels of `init_ctl`. -/
inductive system_types where
  | SYSTEM_GB
  | SYSTEM_GBC
  | SYSTEM_SGB
  | SYSTEM_GBP
  deriving DecidableEq, Repr

section Execute

variable {M : Type}

/-- Boot up: `init_ctl(type)`.  The `debug(...)` calls only print and are left
out; `SYSTEM_GB` is the label that shares the `default:` arm. -/
def init_ctl (type : system_types) (s : State M) : State M :=
  let s := { s with pc := 0x0100 }
  let s :=
    match type with
    | .SYSTEM_SGB => s.set_a (char_of_int 0x01)
    | .SYSTEM_GBC => s.set_a (char_of_int 0x11)
    | .SYSTEM_GBP => s.set_a (char_of_int 0xFF)
    | _ => s.set_a (char_of_int 0x01)
  let s := s.set_f (char_of_int 0xB0)
  let s := s.set_b (char_of_int 0x00)
  let s := s.set_c (char_of_int 0x13)
  let s := s.set_d (char_of_int 0x00)
  let s := s.set_e (char_of_int 0xD8)
  let s := s.set_h (char_of_int 0x01)
  let s := s.set_l (char_of_int 0x4D)
  { s with sp := 0xFFFE }

/-- How one call of `execute` ends. -/
inductive StepResult (M : Type) where
  /-- Modelled from the spec: `fatal` of `print.h`, which is not among the
  sources, ends the whole run (the undefined-opcode fault): the diagnostic names
  the opcode and the program counter, and `s` is the machine state at that
  moment. -/
  | fault (opcode : Nat) (pc : Nat) (s : State M)
  /-- The call returned `value`, leaving the machine in state `s`. -/
  | returned (value : Bool) (s : State M)

/-- The opcode byte `execute` fetches: `unsigned char opcode = mem_read8(pc);`. -/
def fetch (B : Bus M) (s : State M) : Nat :=
  u8 (mem_read8 B s.mem s.pc)

/-- The tail of `execute` after the handler has run:
`if(toggle) { toggle_int_on_next = false; interrupts = !interrupts; }`. -/
def apply_toggle (toggle : Bool) (s : State M) : State M :=
  if toggle then
    { s with toggle_int_on_next := false, interrupts := !s.interrupts }
  else s

/-- The emulated control unit: one call of `execute()`.  `WAIT_CYCLE(cycles,
handler)` expands to the bare handler call, so the table `cycles` plays no part. -/
def execute (B : Bus M) (s : State M) : StepResult M :=
  let opcode := fetch B s
  let handler := handlers B opcode
  let toggle := s.toggle_int_on_next
  match handler with
  | none => .fault opcode s.pc s
  | some handler => .returned true (apply_toggle toggle (handler s))

/-- The run loop of `main`, reduced to its calls of `execute`: `k` further steps
during which neither DI (0xF3) nor EI (0xFB) is fetched.  The result is `none`
when a step faults or fetches one of the two. -/
def run_without_di_ei (B : Bus M) : Nat → State M → Option (State M)
  | 0, s => some s
  | k + 1, s =>
    if fetch B s = 0xF3 ∨ fetch B s = 0xFB then none
    else
      match execute B s with
      | .fault _ _ _ => none
      | .returned _ s1 => run_without_di_ei B k s1

end Execute

/-! ## Concrete machines for the examples -/

/-- A machine over plain storage with all registers zero except `pc`, flags
clear, no toggle pending, interrupts enabled (the initial values of the globals). -/
def machine (pc : Nat) (mem : Nat → Nat) : State (Nat → Nat) :=
  { af := 0, bc := 0, de := 0, hl := 0, sp := 0, pc := pc, flag_reg := 0,
    toggle_int_on_next := false, interrupts := true, mem := mem }

/-- The final state of a step that returned, `none` for a fault. -/
def StepResult.final {M : Type} : StepResult M → Option (State M)
  | .returned _ s => some s
  | .fault _ _ _ => none

/-- The machine at `pc = 0x0100` about to run `JR 0x05` (bytes `18 05`). -/
def jr_example : State (Nat → Nat) :=
  machine 0x0100 (image 0x0100 [0x18, 0x05])

/-- The machine at `pc = 0x0100` about to run `JP 0x0080` (bytes `C3 80 00`). -/
def jp_example : State (Nat → Nat) :=
  machine 0x0100 (image 0x0100 [0xC3, 0x80, 0x00])

/-- The machine at `pc = 0x0100` about to run `JP 0xC000` (bytes `C3 00 C0`). -/
def jp_c000_example : State (Nat → Nat) :=
  machine 0x0100 (image 0x0100 [0xC3, 0x00, 0xC0])

/-- The machine with `sp = 0xFFFE` at `pc = 0x0200` about to run `CALL 0x0300`
(bytes `CD 00 03`). -/
def call_example : State (Nat → Nat) :=
  { machine 0x0200 (image 0x0200 [0xCD, 0x00, 0x03]) with sp := 0xFFFE }

/-- The machine with accumulator `0x42` and only Carry set in `flag_reg`, at
`pc = 0x0100` about to run `CP 0x42` (bytes `FE 42`). -/
def cp_example : State (Nat → Nat) :=
  { machine 0x0100 (image 0x0100 [0xFE, 0x42]) with af := 0x4200, flag_reg := 0x10 }

/-- The machine at `pc = 0x0100` whose memory holds the unbound opcode `0x01`. -/
def unbound_example : State (Nat → Nat) :=
  machine 0x0100 (image 0x0100 [0x01, 0x00])

/-- The machine at `pc = 0x0100` whose memory holds the extended opcode `CB 00`. -/
def cb_example : State (Nat → Nat) :=
  machine 0x0100 (image 0x0100 [0xCB, 0x00])

/-- The machine at `pc = 0x0100` about to run `DI; NOP; NOP` (bytes `F3 00 00`). -/
def di_example : State (Nat → Nat) :=
  machine 0x0100 (image 0x0100 [0xF3, 0x00, 0x00])

/-- The machine with accumulator `0x12` and the given `bc`, about to run a
register copy. -/
def copy_example (bc : Nat) : State (Nat → Nat) :=
  { machine 0x0100 (image 0x0100 []) with af := 0x1200, bc := bc }

/-- What a register-copy handler leaves alone when it takes `s` to `t`: `af`,
`sp`, `flag_reg`, the pending toggle, the master-enable flag and the memory are
unchanged, and `pc` has advanced by 1 modulo 2^16. -/
def copy_frame {M : Type} (s t : State M) : Prop :=
  t.af = s.af ∧ t.sp = s.sp ∧ t.flag_reg = s.flag_reg ∧
  t.toggle_int_on_next = s.toggle_int_on_next ∧ t.interrupts = s.interrupts ∧
  t.mem = s.mem ∧ t.pc = (s.pc + 1) % 65536

/-- The run loop of `main`, reduced to its calls of `execute`: `k` successive
steps.  The result is `none` when one of them ends in the fault. -/
def run {M : Type} (B : Bus M) : Nat → State M → Option (State M)
  | 0, s => some s
  | k + 1, s =>
    match execute B s with
    | .fault _ _ _ => none
    | .returned _ s1 => run B k s1

/-- The machine at `pc = 0x0100` about to run `DI; DI; NOP` (bytes `F3 F3 00`). -/
def di_di_example : State (Nat → Nat) :=
  machine 0x0100 (image 0x0100 [0xF3, 0xF3, 0x00])

/-- The machine at `pc = 0x0100` about to run `DI; EI; NOP` (bytes `F3 FB 00`). -/
def di_ei_example : State (Nat → Nat) :=
  machine 0x0100 (image 0x0100 [0xF3, 0xFB, 0x00])

/-- The machine at `pc = 0x0100` about to run `XOR A; CP 0x00; CP 0x01`
(bytes `AF FE 00 FE 01`). -/
def flags_example : State (Nat → Nat) :=
  machine 0x0100 (image 0x0100 [0xAF, 0xFE, 0x00, 0xFE, 0x01])

/-- The machine with accumulator `0x80` and `flag_reg = 0`, at `pc = 0x0100`
about to run `CP 0x01` (bytes `FE 01`). -/
def cp_signed_example : State (Nat → Nat) :=
  { machine 0x0100 (image 0x0100 [0xFE, 0x01]) with af := 0x8000 }

/-- The machine with accumulator `0x5A`, `b = 0x5A`, `c = 0x0F` and all four
flags set in `flag_reg`, about to run an exclusive-or. -/
def xor_example : State (Nat → Nat) :=
  { machine 0x0100 (image 0x0100 [0xA8]) with af := 0x5A00, bc := 0x5A0F, flag_reg := 0xF0 }

/-- The machine right after boot: `init_ctl` for the original model applied to
the initial values of the globals, with `JR Z,0x05` (bytes `28 05`) at `0x0100`. -/
def boot_example : State (Nat → Nat) :=
  init_ctl .SYSTEM_GB (machine 0 (image 0x0100 [0x28, 0x05]))

/-- The machine with accumulator `0x12`, at `pc = 0x0100` about to run
`LD (0xC080),A` (bytes `EA 80 C0`: lo = 0x80, hi = 0xC0). -/
def ld_d16_example : State (Nat → Nat) :=
  { machine 0x0100 (image 0x0100 [0xEA, 0x80, 0xC0]) with af := 0x1200 }

/-- The machine with accumulator `0x12`, at `pc = 0x0100`, with the operand byte
`0x80` behind the opcode `op` and the byte `0x34` stored at `0xFF80`. -/
def ldh_example (op : Nat) : State (Nat → Nat) :=
  { machine 0x0100 (fun x => if x = 0xFF80 then 0x34 else image 0x0100 [op, 0x80] x)
    with af := 0x1200 }

/-! ## Joypad (`input.c`)

`sgherm.h`, `input.h` and `ctl_unit.h` are not part of the sources at hand:
`input.c` uses the fields `input_state.col_state`, `input_state.row_state` and
`stop` of `emu_state`, the type `input_key`, and `signal_interrupt` with the
constant `INT_JOYPAD`. -/

/-- Modelled from the spec: the interrupt sources of `ctl_unit.h`, which is not
among the sources: V-blank, LCD-STAT, Timer, Serial, Joypad. -/
inductive interrupt_source where
  | INT_VBLANK
  | INT_LCD_STAT
  | INT_TIMER
  | INT_SERIAL
  | INT_JOYPAD
  deriving DecidableEq, Repr

/-- The member `input_state` of `emu_state`: the column-select nibble and the
row/button state of the joypad register, both stored as bytes. -/
structure input_state_t where
  col_state : Nat
  row_state : Nat
  deriving DecidableEq, Repr

/-- The part of `emu_state` that `input.c` touches: `input_state`, the flag
`stop`, and the state `I` of the interrupt controller, on which
`signal_interrupt` acts. -/
structure emu_state (I : Type) where
  input_state : input_state_t
  stop : Bool
  int_state : I

section Joypad

variable {I : Type}

/-- Read of the joypad register:
`uint8_t val = (col_state << 4) | row_state; assert(reg == 0xFF00); return val;`.
The result is `none` when the assertion fails; otherwise it is the byte returned
together with the state the call leaves, which the function never assigns. -/
def joypad_read (state : emu_state I) (reg : Nat) : Option (Nat × emu_state I) :=
  let val := u8 ((state.input_state.col_state <<< 4) ||| state.input_state.row_state)
  if u16 reg = 0xFF00 then some (val, state) else none

/-- Write of the joypad register:
`assert(reg == 0xFF00); col_state = data >> 4; row_state = data & 0xc0;` with
`data` a `uint8_t`.  The result is `none` when the assertion fails. -/
def joypad_write (state : emu_state I) (reg : Nat) (data : Nat) : Option (emu_state I) :=
  if u16 reg = 0xFF00 then
    let s1 := { state with
      input_state := { state.input_state with col_state := u8 data >>> 4 } }
    some { s1 with
      input_state := { s1.input_state with row_state := u8 data &&& 0xc0 } }
  else none

/-- Key event `joypad_signal(state, key, down)`.  The parameter
`signal_interrupt` stands for the function of that name in `ctl_unit.h`, which
acts on the interrupt controller; the `debug(...)` calls only print and are
left out.
```
uint8_t col_sel = key >> 4;
uint8_t row_sel = key & 0xc0;
if(!(state->input_state.col_state & col_sel)) { return; }
if(down) { state->input_state.row_state &= ~row_sel; }
else { state->stop = false;
       signal_interrupt(state, INT_JOYPAD);
       state->input_state.row_state |= row_sel; }
``` -/
def joypad_signal (signal_interrupt : I → interrupt_source → I)
    (state : emu_state I) (key : Nat) (down : Bool) : emu_state I :=
  let col_sel := u8 (key >>> 4)
  let row_sel := u8 (key &&& 0xc0)
  if state.input_state.col_state &&& col_sel = 0 then state
  else if down then
    { state with
      input_state := { state.input_state with
        row_state := u8 (state.input_state.row_state &&& int_not row_sel) } }
  else
    let s1 := { state with stop := false }
    let s2 := { s1 with int_state := signal_interrupt s1.int_state .INT_JOYPAD }
    { s2 with
      input_state := { s2.input_state with
        row_state := u8 (s2.input_state.row_state ||| row_sel) } }

end Joypad

/-- Modelled from the spec: an interrupt controller that records every call of
`signal_interrupt` in order, newest first, so that calls can be counted. -/
def record_interrupt (log : List interrupt_source) (source : interrupt_source) :
    List interrupt_source :=
  source :: log

/-- A joypad state with the given column and row bytes, the machine stopped, and
no interrupt signalled so far. -/
def pad (col row : Nat) : emu_state (List interrupt_source) :=
  { input_state := { col_state := col, row_state := row }, stop := true, int_state := [] }

/-- What an exclusive-or handler with operand byte `r` does when it takes `s` to
`t`: the accumulator is the old accumulator XOR `r`; `flag_reg` is `0x80` when
that result is 0 and `0x00` otherwise; the low byte of `af`, `bc`, `de`, `hl`,
`sp`, the pending toggle, the master-enable flag and the memory are unchanged;
`pc` has advanced by 1 modulo 2^16. -/
def xor_post {M : Type} (r : Nat) (s t : State M) : Prop :=
  t.a = s.a ^^^ r ∧
  t.flag_reg = (if s.a ^^^ r = 0 then 0x80 else 0x00) ∧
  t.f = s.f ∧ t.bc = s.bc ∧ t.de = s.de ∧ t.hl = s.hl ∧ t.sp = s.sp ∧
  t.toggle_int_on_next = s.toggle_int_on_next ∧ t.interrupts = s.interrupts ∧
  t.mem = s.mem ∧ t.pc = (s.pc + 1) % 65536

/-- What a handler that only stores to memory or only loads the accumulator
leaves alone when it takes `s` to `t`: the low byte of `af`, `bc`, `de`, `hl`,
`sp`, `flag_reg`, the pending toggle and the master-enable flag. -/
def load_store_frame {M : Type} (s t : State M) : Prop :=
  t.f = s.f ∧ t.bc = s.bc ∧ t.de = s.de ∧ t.hl = s.hl ∧ t.sp = s.sp ∧
  t.flag_reg = s.flag_reg ∧ t.toggle_int_on_next = s.toggle_int_on_next ∧
  t.interrupts = s.interrupts

/-! ## Theorems -/

section Theorems

/-- Passing an address already reduced to 16 bits reads the same cell. -/
theorem mem_read8_u16 {M : Type} (B : Bus M) (m : M) (addr : Nat) :
    mem_read8 B m (u16 addr) = mem_read8 B m addr := by
  simp only [mem_read8, u16, Nat.mod_mod]

/-- A byte read from the bus is below 256. -/
theorem mem_read8_lt {M : Type} (B : Bus M) (m : M) (addr : Nat) :
    mem_read8 B m addr < 256 := by
  simp only [mem_read8, u8]
  omega

/-- Integer promotion only looks at the low 8 bits of a stored pattern. -/
theorem int_of_char_mod (b : Nat) : int_of_char (b % 256) = int_of_char b := by
  simp only [int_of_char, Nat.mod_mod]

/-- The 16-bit value of `msb<<8 | lsb` for all operand bytes: the plain value
`msb * 256 + lsb` when `lsb < 0x80`, and `0xFF00 + lsb` otherwise. -/
theorem imm16_pattern : ∀ lo hi : Fin 256,
    u16 (int_shl (int_of_char hi.val) 8 ||| int_of_char lo.val) =
      if lo.val < 128 then hi.val * 256 + lo.val else 0xFF00 + lo.val := by
  decide!

/-- The flag statements of `cp_imm8` on the equal path, for all flag patterns:
Zero and Subtract are set and no bit is cleared. -/
theorem cp_flags_equal_pattern : ∀ fl : Fin 256,
    char_of_int (int_of_char (char_of_int (int_of_char
      (char_of_int (int_of_char fl.val ||| FLAG_N)) &&&
        (int_not FLAG_H ||| int_not FLAG_C))) ||| FLAG_Z) = fl.val ||| 0xC0 := by
  decide!

/-- The second operand byte of a three-byte instruction is read at `pc + 2`. -/
theorem mem_read8_second_operand {M : Type} (B : Bus M) (m : M) (pc : Nat) :
    mem_read8 B m (u16 (pc + 1) + 1) = mem_read8 B m (pc + 2) := by
  have hm : ((pc + 1) % 65536 + 1) % 65536 = (pc + 2) % 65536 := by omega
  simp only [mem_read8, u16, Nat.mod_mod, hm]

/-- Claim C1, evaluated on the code.  For every bus and state `jr_imm8` leaves
`pc + d` modulo 2^16 with `d` the displacement byte read as an unsigned value
`0..255`, not `pc + 2 + d` with `d` signed.  At `pc = 0x0100` with displacement
byte `0x05`, `jr_imm8` (also when reached through `execute` on opcode 0x18)
leaves `pc = 0x0105`, not `0x0107`.  The same holds for the taken `jr_z_imm8`
(Zero set) and the taken `jr_nz_imm8` (Zero clear); the jumps not taken do
leave `pc + 2`. -/
theorem jr_imm8_taken_omits_instruction_length :
    (∀ (M : Type) (B : Bus M) (s : State M),
      (jr_imm8 B s).pc = (s.pc + mem_read8 B s.mem (s.pc + 1)) % 65536) ∧
    (jr_imm8 flatBus jr_example).pc = 0x0105 ∧
    (execute flatBus jr_example).final.map State.pc = some 0x0105 ∧
    (jr_nz_imm8 flatBus jr_example).pc = 0x0105 ∧
    (jr_z_imm8 flatBus { jr_example with flag_reg := 0x80 }).pc = 0x0105 ∧
    (jr_z_imm8 flatBus jr_example).pc = 0x0102 ∧
    (jr_nz_imm8 flatBus { jr_example with flag_reg := 0x80 }).pc = 0x0102 := by
  refine ⟨?_, by decide, by decide, by decide, by decide, by decide, by decide⟩
  intro M B s
  simp only [jr_imm8, u16, u8, mem_read8, Nat.mod_mod]

/-- Claim C2, evaluated on the code.  For every bus and state, with `lo` the
byte at `pc + 1` and `hi` the byte at `pc + 2`, `jp_imm16` leaves
`pc = hi * 256 + lo` when `lo < 0x80` but `pc = 0xFF00 + lo` when `lo >= 0x80`:
the low operand byte is held in a plain `char`, whose sign extension sets the
whole high byte in `msb<<8 | lsb`.  The bytes `C3 80 00` (lo = 0x80, hi = 0x00)
leave `pc = 0xFF80`, not `0x0080`; the bytes `C3 00 C0` do leave `pc = 0xC000`. -/
theorem jp_imm16_sign_extends_low_byte :
    (∀ (M : Type) (B : Bus M) (s : State M),
      (jp_imm16 B s).pc =
        if mem_read8 B s.mem (s.pc + 1) < 128
        then mem_read8 B s.mem (s.pc + 2) * 256 + mem_read8 B s.mem (s.pc + 1)
        else 0xFF00 + mem_read8 B s.mem (s.pc + 1)) ∧
    (jp_imm16 flatBus jp_example).pc = 0xFF80 ∧
    (execute flatBus jp_example).final.map State.pc = some 0xFF80 ∧
    (jp_imm16 flatBus jp_c000_example).pc = 0xC000 := by
  refine ⟨?_, by decide, by decide, by decide⟩
  intro M B s
  have hp := imm16_pattern ⟨mem_read8 B s.mem (s.pc + 1), mem_read8_lt B _ _⟩
    ⟨mem_read8 B s.mem (s.pc + 2), mem_read8_lt B _ _⟩
  simp only [jp_imm16, State.inc_pc, mem_read8_u16, mem_read8_second_operand, char_of_int]
  rw [Nat.mod_eq_of_lt (mem_read8_lt B _ _), Nat.mod_eq_of_lt (mem_read8_lt B _ _)]
  exact hp

/-- Claim C3.  For every bus, every `pc`, `sp` and memory, `call_imm16` leaves
`sp = sp - 2` modulo 2^16 and its memory is the old one after
`mem_write16(new sp, pc + 3)` with `pc + 3` taken modulo 2^16.  With
`sp = 0xFFFE` and the call at `pc = 0x0200` to `0x0300`, `sp` becomes `0xFFFC`
and the little-endian word at `0xFFFC` is `0x0203`. -/
theorem call_imm16_pushes_return_address :
    (∀ (M : Type) (B : Bus M) (s : State M),
      ((call_imm16 B s).sp : Int) = ((s.sp : Int) - 2) % 65536 ∧
      (call_imm16 B s).mem =
        mem_write16 B s.mem (call_imm16 B s).sp ((s.pc + 3) % 65536)) ∧
    (call_imm16 flatBus call_example).sp = 0xFFFC ∧
    mem_read16 flatBus (call_imm16 flatBus call_example).mem 0xFFFC = 0x0203 ∧
    (call_imm16 flatBus call_example).pc = 0x0300 := by
  refine ⟨?_, by decide, by decide, by decide⟩
  intro M B s
  constructor
  · simp only [call_imm16, State.inc_pc, u16]
    omega
  · simp only [call_imm16, State.inc_pc, u16, mem_write16]
    congr 1
    omega

/-- Claim C4, evaluated on the code.  For every bus and state in which the
immediate byte at `pc + 1` equals the accumulator, `cp_imm8` leaves `flag_reg`
equal to the prior flags with Zero and Subtract added: Carry and Half-Carry are
kept as they were, not cleared.  With accumulator `0x42`, immediate `0x42` and
Carry set beforehand (`flag_reg = 0x10`), `cp_imm8` leaves `flag_reg = 0xD0`
(Zero, Subtract and Carry), not `0xC0`: the mask `~FLAG_H | ~FLAG_C` is all
ones, so the statement meant to clear Half-Carry and Carry clears nothing. -/
theorem cp_imm8_equal_keeps_prior_carry :
    (∀ (M : Type) (B : Bus M) (s : State M),
      s.a = mem_read8 B s.mem (s.pc + 1) →
      (cp_imm8 B s).flag_reg = s.flag_reg % 256 ||| 0xC0) ∧
    (cp_imm8 flatBus cp_example).flag_reg = 0xD0 ∧
    (execute flatBus cp_example).final.map State.flag_reg = some 0xD0 ∧
    (cp_imm8 flatBus { cp_example with flag_reg := 0x30 }).flag_reg = 0xF0 ∧
    int_not FLAG_H ||| int_not FLAG_C = 4294967295 := by
  refine ⟨?_, by decide, by decide, by decide, by decide⟩
  intro M B s h
  have hp := cp_flags_equal_pattern ⟨s.flag_reg % 256, Nat.mod_lt _ (by decide)⟩
  have ha : State.a { s with pc := u16 (s.pc + 1) } = s.a := rfl
  simp only [cp_imm8, State.inc_pc, mem_read8_u16, ha, h, char_of_int, int_of_char_mod,
    if_true]
  simpa only [char_of_int, int_of_char_mod] using hp

/-- Claim C5.  For every bus and every prior state, `xor_a` leaves the
accumulator `0` and `flag_reg = 0x80` (Zero alone), advances `pc` by 1 modulo
2^16, and changes nothing else: the low byte of `af`, `bc`, `de`, `hl`, `sp`,
the pending toggle, the master-enable flag and the memory are as before. -/
theorem xor_a_zeroes_accumulator_sets_zero_flag {M : Type} (B : Bus M) (s : State M) :
    (xor_a B s).a = 0 ∧ (xor_a B s).flag_reg = 0x80 ∧
    (xor_a B s).pc = (s.pc + 1) % 65536 ∧
    (xor_a B s).f = s.f ∧ (xor_a B s).bc = s.bc ∧ (xor_a B s).de = s.de ∧
    (xor_a B s).hl = s.hl ∧ (xor_a B s).sp = s.sp ∧
    (xor_a B s).toggle_int_on_next = s.toggle_int_on_next ∧
    (xor_a B s).interrupts = s.interrupts ∧ (xor_a B s).mem = s.mem := by
  refine ⟨?_, ?_, rfl, ?_, rfl, rfl, rfl, rfl, rfl, rfl, rfl⟩
  · simp only [xor_a, State.set_a, State.inc_pc, State.a, hi_byte, set_hi, char_of_int]
    omega
  · simp only [xor_a, State.set_a, State.inc_pc, char_of_int, FLAG_Z]
  · simp only [xor_a, State.set_a, State.inc_pc, State.f, lo_byte, set_hi, char_of_int]
    omega

/-- Every handler other than `di` and `ei` leaves the pending toggle and the
master-enable flag as they were. -/
theorem handler_keeps_interrupt_state {M : Type} (B : Bus M) (op : Nat)
    (hd : State M → State M) (hb : handlers B op = some hd)
    (h1 : op ≠ 0xF3) (h2 : op ≠ 0xFB) (s : State M) :
    (hd s).toggle_int_on_next = s.toggle_int_on_next ∧
    (hd s).interrupts = s.interrupts := by
  unfold handlers at hb
  by_cases c00 : op = 0x00
  · rw [if_pos c00] at hb
    cases hb
    simp only [nop, State.inc_pc, and_self]
  rw [if_neg c00] at hb
  by_cases c18 : op = 0x18
  · rw [if_pos c18] at hb
    cases hb
    simp only [jr_imm8, State.inc_pc, and_self]
  rw [if_neg c18] at hb
  by_cases c20 : op = 0x20
  · rw [if_pos c20] at hb
    cases hb
    simp only [jr_nz_imm8, State.inc_pc, and_self]
  rw [if_neg c20] at hb
  by_cases c28 : op = 0x28
  · rw [if_pos c28] at hb
    cases hb
    simp only [jr_z_imm8, State.inc_pc, and_self]
  rw [if_neg c28] at hb
  by_cases c3E : op = 0x3E
  · rw [if_pos c3E] at hb
    cases hb
    simp only [ld_a_imm8, State.inc_pc, State.set_a, and_self]
  rw [if_neg c3E] at hb
  by_cases c47 : op = 0x47
  · rw [if_pos c47] at hb
    cases hb
    simp only [ld_b_a, State.inc_pc, State.set_b, and_self]
  rw [if_neg c47] at hb
  by_cases c4F : op = 0x4F
  · rw [if_pos c4F] at hb
    cases hb
    simp only [ld_c_a, State.inc_pc, State.set_c, and_self]
  rw [if_neg c4F] at hb
  by_cases c57 : op = 0x57
  · rw [if_pos c57] at hb
    cases hb
    simp only [ld_d_a, State.inc_pc, State.set_d, and_self]
  rw [if_neg c57] at hb
  by_cases c5F : op = 0x5F
  · rw [if_pos c5F] at hb
    cases hb
    simp only [ld_e_a, State.inc_pc, State.set_e, and_self]
  rw [if_neg c5F] at hb
  by_cases c67 : op = 0x67
  · rw [if_pos c67] at hb
    cases hb
    simp only [ld_h_a, State.inc_pc, State.set_h, and_self]
  rw [if_neg c67] at hb
  by_cases c6F : op = 0x6F
  · rw [if_pos c6F] at hb
    cases hb
    simp only [ld_l_a, State.inc_pc, State.set_l, and_self]
  rw [if_neg c6F] at hb
  by_cases cA8 : op = 0xA8
  · rw [if_pos cA8] at hb
    cases hb
    simp only [xor_b, xor_common, State.inc_pc, State.set_a]
    split_ifs <;> exact ⟨rfl, rfl⟩
  rw [if_neg cA8] at hb
  by_cases cA9 : op = 0xA9
  · rw [if_pos cA9] at hb
    cases hb
    simp only [xor_c, xor_common, State.inc_pc, State.set_a]
    split_ifs <;> exact ⟨rfl, rfl⟩
  rw [if_neg cA9] at hb
  by_cases cAA : op = 0xAA
  · rw [if_pos cAA] at hb
    cases hb
    simp only [xor_d, xor_common, State.inc_pc, State.set_a]
    split_ifs <;> exact ⟨rfl, rfl⟩
  rw [if_neg cAA] at hb
  by_cases cAB : op = 0xAB
  · rw [if_pos cAB] at hb
    cases hb
    simp only [xor_e, xor_common, State.inc_pc, State.set_a]
    split_ifs <;> exact ⟨rfl, rfl⟩
  rw [if_neg cAB] at hb
  by_cases cAC : op = 0xAC
  · rw [if_pos cAC] at hb
    cases hb
    simp only [xor_h, xor_common, State.inc_pc, State.set_a]
    split_ifs <;> exact ⟨rfl, rfl⟩
  rw [if_neg cAC] at hb
  by_cases cAD : op = 0xAD
  · rw [if_pos cAD] at hb
    cases hb
    simp only [xor_l, xor_common, State.inc_pc, State.set_a]
    split_ifs <;> exact ⟨rfl, rfl⟩
  rw [if_neg cAD] at hb
  by_cases cAF : op = 0xAF
  · rw [if_pos cAF] at hb
    cases hb
    simp only [xor_a, State.inc_pc, State.set_a, and_self]
  rw [if_neg cAF] at hb
  by_cases cC3 : op = 0xC3
  · rw [if_pos cC3] at hb
    cases hb
    simp only [jp_imm16, State.inc_pc, and_self]
  rw [if_neg cC3] at hb
  by_cases cCB : op = 0xCB
  · rw [if_pos cCB] at hb
    cases hb
    simp only [cb_dispatch, State.inc_pc, and_self]
  rw [if_neg cCB] at hb
  by_cases cCD : op = 0xCD
  · rw [if_pos cCD] at hb
    cases hb
    simp only [call_imm16, State.inc_pc, and_self]
  rw [if_neg cCD] at hb
  by_cases cE0 : op = 0xE0
  · rw [if_pos cE0] at hb
    cases hb
    simp only [ldh_imm8_a, State.inc_pc, and_self]
  rw [if_neg cE0] at hb
  by_cases cEA : op = 0xEA
  · rw [if_pos cEA] at hb
    cases hb
    simp only [ld_d16_a, State.inc_pc, and_self]
  rw [if_neg cEA] at hb
  by_cases cF0 : op = 0xF0
  · rw [if_pos cF0] at hb
    cases hb
    simp only [ldh_a_imm8, State.inc_pc, State.set_a, and_self]
  rw [if_neg cF0] at hb
  by_cases cF3 : op = 0xF3
  · contradiction
  rw [if_neg cF3] at hb
  by_cases cFB : op = 0xFB
  · contradiction
  rw [if_neg cFB] at hb
  by_cases cFE : op = 0xFE
  · rw [if_pos cFE] at hb
    cases hb
    simp only [cp_imm8, State.inc_pc, and_self]
  rw [if_neg cFE] at hb
  cases hb

/-- A step that fetches neither DI nor EI and finds no toggle pending leaves
the master-enable flag unchanged and no toggle pending. -/
theorem execute_keeps_interrupts {M : Type} (B : Bus M) (s t : State M) (v : Bool)
    (h0 : s.toggle_int_on_next = false)
    (h1 : fetch B s ≠ 0xF3) (h2 : fetch B s ≠ 0xFB)
    (he : execute B s = .returned v t) :
    t.interrupts = s.interrupts ∧ t.toggle_int_on_next = false := by
  unfold execute at he
  cases hb : handlers B (fetch B s) with
  | none => simp [hb] at he
  | some hd =>
    simp only [hb, h0, apply_toggle] at he
    have hk := handler_keeps_interrupt_state B _ hd hb h1 h2 s
    cases he
    exact ⟨hk.2, hk.1.trans h0⟩

/-- Any number of further steps that fetch neither DI nor EI, started with no
toggle pending, leave the master-enable flag unchanged and no toggle pending. -/
theorem run_without_di_ei_keeps_interrupts {M : Type} (B : Bus M) (k : Nat) :
    ∀ (s t : State M), s.toggle_int_on_next = false →
      run_without_di_ei B k s = some t →
      t.interrupts = s.interrupts ∧ t.toggle_int_on_next = false := by
  induction k with
  | zero =>
    intro s t h0 hr
    simp only [run_without_di_ei, Option.some.injEq] at hr
    subst hr
    exact ⟨rfl, h0⟩
  | succ k ih =>
    intro s t h0 hr
    simp only [run_without_di_ei] at hr
    split_ifs at hr with hop
    have h1 : fetch B s ≠ 0xF3 := fun hx => hop (Or.inl hx)
    have h2 : fetch B s ≠ 0xFB := fun hx => hop (Or.inr hx)
    cases he : execute B s with
    | fault o p st => simp [he] at hr
    | returned v s1 =>
      simp only [he] at hr
      have hs := execute_keeps_interrupts B s s1 v h0 h1 h2 he
      have ht := ih s1 t hs.2 hr
      exact ⟨ht.1.trans hs.1, ht.2⟩

/-- Claim C6.  For every bus and state, `execute` ends in the undefined-opcode
fault exactly when `handlers` has no entry (`NULL`) for the byte fetched at `pc`;
the fault then names that byte and `pc` and the machine state is the one
`execute` was entered with (nothing was modified); otherwise `execute` runs the
handler bound to that byte, applies a toggle that was pending on entry, and
returns `true`.  For example opcode `0x01` faults and opcode `0x18` returns. -/
theorem execute_faults_iff_no_handler :
    (∀ (M : Type) (B : Bus M) (s : State M),
      ((∃ op pc st, execute B s = .fault op pc st) ↔ handlers B (fetch B s) = none) ∧
      (∀ op pc st, execute B s = .fault op pc st →
        op = fetch B s ∧ pc = s.pc ∧ st = s) ∧
      (∀ hd, handlers B (fetch B s) = some hd →
        execute B s = .returned true (apply_toggle s.toggle_int_on_next (hd s)))) ∧
    (execute flatBus unbound_example).final.isNone = true ∧
    (execute flatBus jr_example).final.isSome = true := by
  refine ⟨?_, by decide, by decide⟩
  intro M B s
  cases hb : handlers B (fetch B s) with
  | none =>
    have hex : execute B s = .fault (fetch B s) s.pc s := by
      simp only [execute, hb]
    rw [hex]
    refine ⟨⟨fun _ => rfl, fun _ => ⟨_, _, _, rfl⟩⟩, ?_, ?_⟩
    · intro op pc st he
      simp only [StepResult.fault.injEq] at he
      exact ⟨he.1.symm, he.2.1.symm, he.2.2.symm⟩
    · intro hd hh
      cases hh
  | some hd0 =>
    have hex : execute B s =
        .returned true (apply_toggle s.toggle_int_on_next (hd0 s)) := by
      simp only [execute, hb]
    rw [hex]
    refine ⟨⟨?_, ?_⟩, ?_, ?_⟩
    · rintro ⟨op, pc, st, he⟩
      cases he
    · intro hh
      cases hh
    · intro op pc st he
      cases he
    · intro hd hh
      cases hh
      rfl

/-- What `execute` does when the byte fetched at `pc` is 0xCB: it runs
`cb_dispatch` and returns `true`, whatever the byte at `pc + 1` is; `pc` has
advanced by 2 modulo 2^16, the registers `af`, `bc`, `de`, `hl`, `sp`,
`flag_reg` and the memory are unchanged, and a toggle pending on entry has been
applied. -/
theorem execute_on_cb_opcode {M : Type} (B : Bus M) (s : State M)
    (hf : fetch B s = 0xCB) :
    ∃ t, execute B s = .returned true t ∧
      t = apply_toggle s.toggle_int_on_next (cb_dispatch B s) ∧
      t.pc = (s.pc + 2) % 65536 ∧
      t.af = s.af ∧ t.bc = s.bc ∧ t.de = s.de ∧ t.hl = s.hl ∧ t.sp = s.sp ∧
      t.flag_reg = s.flag_reg ∧ t.mem = s.mem := by
  refine ⟨_, ?_, rfl, ?_⟩
  · simp [execute, hf, handlers]
  · have hpc : ((s.pc + 1) % 65536 + 1) % 65536 = (s.pc + 2) % 65536 := by omega
    cases ht : s.toggle_int_on_next <;>
      simp [apply_toggle, cb_dispatch, State.inc_pc, u16, hpc]

/-- Claim C7, evaluated on the code.  With the bytes `CB 00` at `pc = 0x0100`
the byte fetched is the extended opcode 0xCB and no handler is bound to the
second byte `0x00` anywhere, yet `execute` does not end in the undefined-opcode
fault: it returns with `pc = 0x0102` and nothing else changed, whereas the
unbound primary opcode `0x01` does fault.  For every bus, state and second byte,
a fetched 0xCB makes `execute` return `true` in the state `cb_dispatch`
produces: the byte read at `pc + 1` is dropped, nothing is dispatched, and `pc`
has advanced by 2 modulo 2^16. -/
theorem cb_dispatch_never_faults :
    fetch flatBus cb_example = 0xCB ∧
    mem_read8 flatBus cb_example.mem (cb_example.pc + 1) = 0x00 ∧
    (execute flatBus cb_example).final.isSome = true ∧
    (execute flatBus cb_example).final.map State.pc = some 0x0102 ∧
    (execute flatBus cb_example).final.map State.af = some cb_example.af ∧
    (execute flatBus cb_example).final.map State.flag_reg = some cb_example.flag_reg ∧
    (execute flatBus unbound_example).final.isNone = true ∧
    (∀ (M : Type) (B : Bus M) (s : State M), fetch B s = 0xCB →
      ∃ t, execute B s = .returned true t ∧
        t = apply_toggle s.toggle_int_on_next (cb_dispatch B s) ∧
        t.pc = (s.pc + 2) % 65536 ∧
        t.af = s.af ∧ t.bc = s.bc ∧ t.de = s.de ∧ t.hl = s.hl ∧ t.sp = s.sp ∧
        t.flag_reg = s.flag_reg ∧ t.mem = s.mem) := by
  repeat' apply And.intro
  all_goals first
    | decide
    | exact fun M B s hf => execute_on_cb_opcode B s hf

/-- Claim C8.  Start with no toggle pending and let step N fetch DI (0xF3) or EI
(0xFB).  Then step N returns, with the master-enable flag `interrupts`
unchanged and the toggle pending.  If step N+1 then fetches any bound opcode
other than DI/EI, it returns with `interrupts` flipped once with respect to its
value before step N and with no toggle pending; and after any number of
further steps that fetch neither DI nor EI, `interrupts` still has that flipped
value and no toggle is pending. -/
theorem deferred_toggle_applies_after_next_step {M : Type} (B : Bus M) (s0 : State M)
    (h0 : s0.toggle_int_on_next = false)
    (hN : fetch B s0 = 0xF3 ∨ fetch B s0 = 0xFB) :
    ∃ s1, execute B s0 = .returned true s1 ∧
      s1.interrupts = s0.interrupts ∧ s1.toggle_int_on_next = true ∧
      ∀ hd, handlers B (fetch B s1) = some hd →
        fetch B s1 ≠ 0xF3 → fetch B s1 ≠ 0xFB →
        ∃ s2, execute B s1 = .returned true s2 ∧
          s2.interrupts = (!s0.interrupts) ∧ s2.toggle_int_on_next = false ∧
          ∀ k s3, run_without_di_ei B k s2 = some s3 →
            s3.interrupts = (!s0.interrupts) ∧ s3.toggle_int_on_next = false := by
  have hs1 : execute B s0 = .returned true (di B s0) := by
    rcases hN with hN | hN
    · simp [execute, hN, handlers, h0, apply_toggle]
    · simp [execute, hN, handlers, h0, apply_toggle, di, ei]
  refine ⟨di B s0, hs1, rfl, rfl, ?_⟩
  intro hd hb h1 h2
  have hk := handler_keeps_interrupt_state B _ hd hb h1 h2 (di B s0)
  have hs2 : execute B (di B s0) =
      .returned true (apply_toggle true (hd (di B s0))) := by
    simp only [execute, hb]
    rfl
  refine ⟨_, hs2, ?_, rfl, ?_⟩
  · show (!(hd (di B s0)).interrupts) = (!s0.interrupts)
    rw [hk.2]
    rfl
  · intro k s3 hr
    have hrun := run_without_di_ei_keeps_interrupts B k _ s3 rfl hr
    refine ⟨hrun.1.trans ?_, hrun.2⟩
    show (!(hd (di B s0)).interrupts) = (!s0.interrupts)
    rw [hk.2]
    rfl

/-- Claim C8 at a concrete machine: `DI; NOP; NOP` from `pc = 0x0100` over plain
storage, no toggle pending. -/
theorem deferred_toggle_applies_after_next_step_witness :
    di_example.toggle_int_on_next = false ∧
    (fetch flatBus di_example = 0xF3 ∨ fetch flatBus di_example = 0xFB) ∧
    ∃ s1, execute flatBus di_example = .returned true s1 ∧
      s1.interrupts = di_example.interrupts ∧ s1.toggle_int_on_next = true ∧
      ∀ hd, handlers flatBus (fetch flatBus s1) = some hd →
        fetch flatBus s1 ≠ 0xF3 → fetch flatBus s1 ≠ 0xFB →
        ∃ s2, execute flatBus s1 = .returned true s2 ∧
          s2.interrupts = (!di_example.interrupts) ∧ s2.toggle_int_on_next = false ∧
          ∀ k s3, run_without_di_ei flatBus k s2 = some s3 →
            s3.interrupts = (!di_example.interrupts) ∧ s3.toggle_int_on_next = false :=
  ⟨by decide, by decide,
    deferred_toggle_applies_after_next_step flatBus di_example (by decide) (by decide)⟩

/-- Claim C9.  For every system variant and every prior state, `init_ctl`
leaves `pc = 0x0100`, `bc = 0x0013`, `de = 0x00D8`, `hl = 0x014D`,
`sp = 0xFFFE`, the low byte of `af` equal to `0xB0`, and the high byte of `af`
(the accumulator) equal to `0x01` for the original and the Super variant, `0x11`
for the Color variant and `0xFF` for the portable variant. -/
theorem init_ctl_post_boot_registers {M : Type} (type : system_types) (s : State M) :
    (init_ctl type s).pc = 0x0100 ∧ (init_ctl type s).bc = 0x0013 ∧
    (init_ctl type s).de = 0x00D8 ∧ (init_ctl type s).hl = 0x014D ∧
    (init_ctl type s).sp = 0xFFFE ∧ (init_ctl type s).f = 0xB0 ∧
    (init_ctl type s).a =
      (match type with
        | .SYSTEM_GB => 0x01
        | .SYSTEM_SGB => 0x01
        | .SYSTEM_GBC => 0x11
        | .SYSTEM_GBP => 0xFF) ∧
    (init_ctl type s).af = (init_ctl type s).a * 256 + 0xB0 := by
  have hlo : ∀ w v : Nat, lo_byte (set_lo w v) = v % 256 := by
    intro w v
    simp only [lo_byte, set_lo]
    omega
  have hhi : ∀ w v : Nat, hi_byte (set_lo w v) = hi_byte w := by
    intro w v
    simp only [hi_byte, set_lo]
    omega
  have hhh : ∀ w v : Nat, hi_byte (set_hi w v) = v % 256 := by
    intro w v
    simp only [hi_byte, set_hi]
    omega
  have hw : ∀ w v u : Nat, set_lo (set_hi w v) u = v % 256 * 256 + u % 256 := by
    intro w v u
    simp only [set_hi, set_lo]
    omega
  cases type <;>
    refine ⟨rfl, hw _ _ _, hw _ _ _, hw _ _ _, rfl, hlo _ _, (hhi _ _).trans (hhh _ _),
      ?_⟩ <;>
    exact (hw _ _ _).trans (congrArg (fun x => x * 256 + 176) ((hhi _ _).trans (hhh _ _)).symm)

/-- Claim C10.  For every bus and state, each of `ld_b_a`, `ld_c_a`, `ld_d_a`,
`ld_e_a`, `ld_h_a`, `ld_l_a` stores the accumulator in the named half of its
pair and leaves the other half of that pair, the two other pairs, `af`, `sp` and
`flag_reg` (and the toggle, the master-enable flag and the memory) unchanged,
with `pc` advanced by 1 modulo 2^16.  With `bc = 0x00FF` and accumulator `0x12`,
`ld_b_a` leaves `bc = 0x12FF`; with `bc = 0xFF00`, `ld_c_a` leaves `bc = 0xFF12`. -/
theorem ld_r_a_writes_only_named_half :
    (∀ (M : Type) (B : Bus M) (s : State M),
      ((ld_b_a B s).b = s.a ∧ (ld_b_a B s).c = s.c ∧ (ld_b_a B s).de = s.de ∧
        (ld_b_a B s).hl = s.hl ∧ copy_frame s (ld_b_a B s)) ∧
      ((ld_c_a B s).c = s.a ∧ (ld_c_a B s).b = s.b ∧ (ld_c_a B s).de = s.de ∧
        (ld_c_a B s).hl = s.hl ∧ copy_frame s (ld_c_a B s)) ∧
      ((ld_d_a B s).d = s.a ∧ (ld_d_a B s).e = s.e ∧ (ld_d_a B s).bc = s.bc ∧
        (ld_d_a B s).hl = s.hl ∧ copy_frame s (ld_d_a B s)) ∧
      ((ld_e_a B s).e = s.a ∧ (ld_e_a B s).d = s.d ∧ (ld_e_a B s).bc = s.bc ∧
        (ld_e_a B s).hl = s.hl ∧ copy_frame s (ld_e_a B s)) ∧
      ((ld_h_a B s).h = s.a ∧ (ld_h_a B s).l = s.l ∧ (ld_h_a B s).bc = s.bc ∧
        (ld_h_a B s).de = s.de ∧ copy_frame s (ld_h_a B s)) ∧
      ((ld_l_a B s).l = s.a ∧ (ld_l_a B s).h = s.h ∧ (ld_l_a B s).bc = s.bc ∧
        (ld_l_a B s).de = s.de ∧ copy_frame s (ld_l_a B s))) ∧
    (ld_b_a flatBus (copy_example 0x00FF)).bc = 0x12FF ∧
    (ld_c_a flatBus (copy_example 0xFF00)).bc = 0xFF12 := by
  refine ⟨?_, by decide, by decide⟩
  intro M B s
  simp only [ld_b_a, ld_c_a, ld_d_a, ld_e_a, ld_h_a, ld_l_a, copy_frame, State.inc_pc,
    State.set_b, State.set_c, State.set_d, State.set_e, State.set_h, State.set_l,
    State.a, State.b, State.c, State.d, State.e, State.h, State.l, hi_byte, lo_byte,
    set_hi, set_lo, u16, and_self, and_true, true_and]
  refine ⟨⟨?_, ?_⟩, ⟨?_, ?_⟩, ⟨?_, ?_⟩, ⟨?_, ?_⟩, ⟨?_, ?_⟩, ⟨?_, ?_⟩⟩ <;> omega

/-! ### Byte-level facts shared by the theorems below -/

/-- Exclusive-or commutes with reduction to the low 8 bits. -/
theorem xor_mod_256 (x y : Nat) : (x ^^^ y) % 256 = (x % 256) ^^^ (y % 256) := by
  have h : (x ^^^ y) % 2 ^ 8 = (x % 2 ^ 8) ^^^ (y % 2 ^ 8) := by
    apply Nat.eq_of_testBit_eq
    intro i
    simp only [Nat.testBit_mod_two_pow, Nat.testBit_xor]
    cases decide (i < 8) <;> simp
  simpa using h

/-- The statement `*a ^= to_xor` on two plain `char` objects yields the
exclusive-or of their bit patterns. -/
theorem xor_char (x y : Nat) :
    char_of_int (int_of_char x ^^^ int_of_char y) = (x % 256) ^^^ (y % 256) := by
  have hx : int_of_char x % 256 = x % 256 := by
    simp only [int_of_char]
    split_ifs <;> omega
  have hy : int_of_char y % 256 = y % 256 := by
    simp only [int_of_char]
    split_ifs <;> omega
  rw [char_of_int, xor_mod_256, hx, hy]

/-- Two `char` objects compare equal after promotion exactly when their bit
patterns are equal. -/
theorem int_of_char_eq_iff (x y : Nat) (hx : x < 256) (hy : y < 256) :
    int_of_char x = int_of_char y ↔ x = y := by
  simp only [int_of_char]
  constructor
  · intro h
    split_ifs at h <;> omega
  · intro h
    rw [h]

/-- The value of a promoted plain `char`: patterns `0x80..0xFF` are the negative
numbers `-128..-1`. -/
theorem int_val_char_pattern : ∀ x : Fin 256,
    int_val (int_of_char x.val) = (((x.val + 128) % 256 : Nat) : Int) - 128 := by
  decide!

/-- The comparison `<` of two plain `char` objects is the signed one: it orders
the patterns as `0x80 < .. < 0xFF < 0x00 < .. < 0x7F`. -/
theorem int_lt_char (x y : Nat) (hx : x < 256) (hy : y < 256) :
    int_lt (int_of_char x) (int_of_char y) =
      decide ((x + 128) % 256 < (y + 128) % 256) := by
  have h1 := int_val_char_pattern ⟨x, hx⟩
  have h2 := int_val_char_pattern ⟨y, hy⟩
  simp only at h1 h2
  simp only [int_lt, h1, h2, decide_eq_decide]
  omega

/-- The flag statements of `cp_imm8` on the two unequal paths, for all flag
patterns: Subtract is set, Zero is cleared, Carry (first path) or Half-Carry
(second path) is set, and no other bit changes. -/
theorem cp_flags_unequal_pattern : ∀ fl : Fin 256,
    char_of_int (int_of_char (char_of_int (int_of_char (char_of_int (int_of_char
      (char_of_int (int_of_char fl.val ||| FLAG_N)) &&&
        (int_not FLAG_H ||| int_not FLAG_C))) &&& int_not FLAG_Z)) ||| FLAG_C)
      = (fl.val &&& 0x7F) ||| 0x50 ∧
    char_of_int (int_of_char (char_of_int (int_of_char (char_of_int (int_of_char
      (char_of_int (int_of_char fl.val ||| FLAG_N)) &&&
        (int_not FLAG_H ||| int_not FLAG_C))) &&& int_not FLAG_Z)) ||| FLAG_H)
      = (fl.val &&& 0x7F) ||| 0x60 := by
  decide!

/-- None of the three flag results of `cp_imm8` touches the low nibble. -/
theorem cp_flags_low_nibble_pattern : ∀ fl : Fin 256,
    (fl.val ||| 0xC0) % 16 = fl.val % 16 ∧
    ((fl.val &&& 0x7F) ||| 0x50) % 16 = fl.val % 16 ∧
    ((fl.val &&& 0x7F) ||| 0x60) % 16 = fl.val % 16 := by
  decide!

/-- The flag register `cp_imm8` leaves, for every bus and state, with `n` the
immediate byte at `pc + 1`: the prior flags with Zero and Subtract added when
the accumulator equals `n`; otherwise the prior flags with Zero cleared,
Subtract set, and Carry added when the accumulator is below `n` as a signed
`char`, Half-Carry added when it is above. -/
theorem cp_imm8_flag_reg {M : Type} (B : Bus M) (s : State M) :
    (cp_imm8 B s).flag_reg =
      if s.a = mem_read8 B s.mem (s.pc + 1) then s.flag_reg % 256 ||| 0xC0
      else if (s.a + 128) % 256 < (mem_read8 B s.mem (s.pc + 1) + 128) % 256
        then (s.flag_reg % 256 &&& 0x7F) ||| 0x50
        else (s.flag_reg % 256 &&& 0x7F) ||| 0x60 := by
  have hn : mem_read8 B s.mem (s.pc + 1) < 256 := mem_read8_lt B _ _
  have ha : s.a < 256 := by
    simp only [State.a, hi_byte]
    omega
  have hfl : s.flag_reg % 256 < 256 := Nat.mod_lt _ (by decide)
  have hpe := cp_flags_equal_pattern ⟨s.flag_reg % 256, hfl⟩
  have hpu := cp_flags_unequal_pattern ⟨s.flag_reg % 256, hfl⟩
  simp only [char_of_int, int_of_char_mod] at hpe hpu
  have hsa : State.a { s with pc := u16 (s.pc + 1) } = s.a := rfl
  simp only [cp_imm8, State.inc_pc, mem_read8_u16, hsa, char_of_int, int_of_char_mod,
    int_of_char_eq_iff _ _ ha hn, int_lt_char _ _ ha hn, decide_eq_true_eq]
  by_cases he : s.a = mem_read8 B s.mem (s.pc + 1)
  · rw [if_pos he, if_pos he]
    exact hpe
  · rw [if_neg he, if_neg he]
    by_cases hl : (s.a + 128) % 256 < (mem_read8 B s.mem (s.pc + 1) + 128) % 256
    · rw [if_pos hl, if_pos hl]
      exact hpu.1
    · rw [if_neg hl, if_neg hl]
      exact hpu.2

/-- Apart from `flag_reg`, `cp_imm8` only moves `pc`, by 2 modulo 2^16. -/
theorem cp_imm8_frame {M : Type} (B : Bus M) (s : State M) :
    (cp_imm8 B s).af = s.af ∧ (cp_imm8 B s).bc = s.bc ∧ (cp_imm8 B s).de = s.de ∧
    (cp_imm8 B s).hl = s.hl ∧ (cp_imm8 B s).sp = s.sp ∧
    (cp_imm8 B s).pc = (s.pc + 2) % 65536 ∧ (cp_imm8 B s).mem = s.mem := by
  refine ⟨rfl, rfl, rfl, rfl, rfl, ?_, rfl⟩
  simp only [cp_imm8, State.inc_pc, u16]
  omega

/-- The low nibble of `flag_reg` is the same before and after `cp_imm8`. -/
theorem cp_imm8_low_nibble {M : Type} (B : Bus M) (s : State M) :
    (cp_imm8 B s).flag_reg % 16 = s.flag_reg % 16 := by
  have hp := cp_flags_low_nibble_pattern ⟨s.flag_reg % 256, Nat.mod_lt _ (by decide)⟩
  simp only at hp
  have hm : s.flag_reg % 256 % 16 = s.flag_reg % 16 := by omega
  rw [cp_imm8_flag_reg]
  split_ifs
  · rw [hp.1, hm]
  · rw [hp.2.1, hm]
  · rw [hp.2.2, hm]

/-- The exclusive-or handlers leave `flag_reg` equal to `0x80` or to `0`. -/
theorem xor_common_flag_reg {M : Type} (v : Nat) (s : State M) :
    (xor_common v s).flag_reg = 0x80 ∨ (xor_common v s).flag_reg = 0 := by
  simp only [xor_common, State.inc_pc]
  split_ifs
  · left
    rfl
  · right
    rfl

/-- The handler `xor_a` leaves `flag_reg` equal to `0x80`. -/
theorem xor_a_flag_reg {M : Type} (B : Bus M) (s : State M) :
    (xor_a B s).flag_reg = 0x80 := by
  simp only [xor_a, State.set_a, State.inc_pc, char_of_int, FLAG_Z]

/-- Every handler turns a flag register with low nibble 0 into one with low
nibble 0. -/
theorem handler_keeps_low_nibble {M : Type} (B : Bus M) (op : Nat)
    (hd : State M → State M) (hb : handlers B op = some hd)
    (s : State M) (h0 : s.flag_reg % 16 = 0) :
    (hd s).flag_reg % 16 = 0 := by
  unfold handlers at hb
  by_cases c00 : op = 0x00
  · rw [if_pos c00] at hb
    cases hb
    simp only [nop, State.inc_pc]
    exact h0
  rw [if_neg c00] at hb
  by_cases c18 : op = 0x18
  · rw [if_pos c18] at hb
    cases hb
    simp only [jr_imm8, State.inc_pc]
    exact h0
  rw [if_neg c18] at hb
  by_cases c20 : op = 0x20
  · rw [if_pos c20] at hb
    cases hb
    simp only [jr_nz_imm8, State.inc_pc]
    exact h0
  rw [if_neg c20] at hb
  by_cases c28 : op = 0x28
  · rw [if_pos c28] at hb
    cases hb
    simp only [jr_z_imm8, State.inc_pc]
    exact h0
  rw [if_neg c28] at hb
  by_cases c3E : op = 0x3E
  · rw [if_pos c3E] at hb
    cases hb
    simp only [ld_a_imm8, State.inc_pc, State.set_a]
    exact h0
  rw [if_neg c3E] at hb
  by_cases c47 : op = 0x47
  · rw [if_pos c47] at hb
    cases hb
    simp only [ld_b_a, State.inc_pc, State.set_b]
    exact h0
  rw [if_neg c47] at hb
  by_cases c4F : op = 0x4F
  · rw [if_pos c4F] at hb
    cases hb
    simp only [ld_c_a, State.inc_pc, State.set_c]
    exact h0
  rw [if_neg c4F] at hb
  by_cases c57 : op = 0x57
  · rw [if_pos c57] at hb
    cases hb
    simp only [ld_d_a, State.inc_pc, State.set_d]
    exact h0
  rw [if_neg c57] at hb
  by_cases c5F : op = 0x5F
  · rw [if_pos c5F] at hb
    cases hb
    simp only [ld_e_a, State.inc_pc, State.set_e]
    exact h0
  rw [if_neg c5F] at hb
  by_cases c67 : op = 0x67
  · rw [if_pos c67] at hb
    cases hb
    simp only [ld_h_a, State.inc_pc, State.set_h]
    exact h0
  rw [if_neg c67] at hb
  by_cases c6F : op = 0x6F
  · rw [if_pos c6F] at hb
    cases hb
    simp only [ld_l_a, State.inc_pc, State.set_l]
    exact h0
  rw [if_neg c6F] at hb
  by_cases cA8 : op = 0xA8
  · rw [if_pos cA8] at hb
    cases hb
    rcases xor_common_flag_reg (State.b s) s with hx | hx <;>
      simp only [xor_b, hx]
  rw [if_neg cA8] at hb
  by_cases cA9 : op = 0xA9
  · rw [if_pos cA9] at hb
    cases hb
    rcases xor_common_flag_reg (State.c s) s with hx | hx <;>
      simp only [xor_c, hx]
  rw [if_neg cA9] at hb
  by_cases cAA : op = 0xAA
  · rw [if_pos cAA] at hb
    cases hb
    rcases xor_common_flag_reg (State.d s) s with hx | hx <;>
      simp only [xor_d, hx]
  rw [if_neg cAA] at hb
  by_cases cAB : op = 0xAB
  · rw [if_pos cAB] at hb
    cases hb
    rcases xor_common_flag_reg (State.e s) s with hx | hx <;>
      simp only [xor_e, hx]
  rw [if_neg cAB] at hb
  by_cases cAC : op = 0xAC
  · rw [if_pos cAC] at hb
    cases hb
    rcases xor_common_flag_reg (State.h s) s with hx | hx <;>
      simp only [xor_h, hx]
  rw [if_neg cAC] at hb
  by_cases cAD : op = 0xAD
  · rw [if_pos cAD] at hb
    cases hb
    rcases xor_common_flag_reg (State.l s) s with hx | hx <;>
      simp only [xor_l, hx]
  rw [if_neg cAD] at hb
  by_cases cAF : op = 0xAF
  · rw [if_pos cAF] at hb
    cases hb
    rw [xor_a_flag_reg]
  rw [if_neg cAF] at hb
  by_cases cC3 : op = 0xC3
  · rw [if_pos cC3] at hb
    cases hb
    simp only [jp_imm16, State.inc_pc]
    exact h0
  rw [if_neg cC3] at hb
  by_cases cCB : op = 0xCB
  · rw [if_pos cCB] at hb
    cases hb
    simp only [cb_dispatch, State.inc_pc]
    exact h0
  rw [if_neg cCB] at hb
  by_cases cCD : op = 0xCD
  · rw [if_pos cCD] at hb
    cases hb
    simp only [call_imm16, State.inc_pc]
    exact h0
  rw [if_neg cCD] at hb
  by_cases cE0 : op = 0xE0
  · rw [if_pos cE0] at hb
    cases hb
    simp only [ldh_imm8_a, State.inc_pc]
    exact h0
  rw [if_neg cE0] at hb
  by_cases cEA : op = 0xEA
  · rw [if_pos cEA] at hb
    cases hb
    simp only [ld_d16_a, State.inc_pc]
    exact h0
  rw [if_neg cEA] at hb
  by_cases cF0 : op = 0xF0
  · rw [if_pos cF0] at hb
    cases hb
    simp only [ldh_a_imm8, State.inc_pc, State.set_a]
    exact h0
  rw [if_neg cF0] at hb
  by_cases cF3 : op = 0xF3
  · rw [if_pos cF3] at hb
    cases hb
    simp only [di, State.inc_pc]
    exact h0
  rw [if_neg cF3] at hb
  by_cases cFB : op = 0xFB
  · rw [if_pos cFB] at hb
    cases hb
    simp only [ei, State.inc_pc]
    exact h0
  rw [if_neg cFB] at hb
  by_cases cFE : op = 0xFE
  · rw [if_pos cFE] at hb
    cases hb
    rw [cp_imm8_low_nibble]
    exact h0
  rw [if_neg cFE] at hb
  cases hb

/-- One step of `execute` keeps the low nibble of the flag register 0. -/
theorem execute_keeps_low_nibble {M : Type} (B : Bus M) (s t : State M) (v : Bool)
    (h0 : s.flag_reg % 16 = 0) (he : execute B s = .returned v t) :
    t.flag_reg % 16 = 0 := by
  cases hb : handlers B (fetch B s) with
  | none => simp [execute, hb] at he
  | some hd =>
    simp only [execute, hb, StepResult.returned.injEq] at he
    have hk := handler_keeps_low_nibble B _ hd hb s h0
    rw [← he.2]
    cases s.toggle_int_on_next <;> exact hk

/-- Any number of `execute` steps keeps the low nibble of the flag register 0. -/
theorem run_keeps_low_nibble {M : Type} (B : Bus M) (k : Nat) :
    ∀ (s t : State M), s.flag_reg % 16 = 0 → run B k s = some t →
      t.flag_reg % 16 = 0 := by
  induction k with
  | zero =>
    intro s t h0 hr
    simp only [run, Option.some.injEq] at hr
    rw [← hr]
    exact h0
  | succ k ih =>
    intro s t h0 hr
    simp only [run] at hr
    cases he : execute B s with
    | fault o p st => simp [he] at hr
    | returned v s1 =>
      simp only [he] at hr
      exact ih s1 t (execute_keeps_low_nibble B s s1 v h0 he) hr

/-- Claim C11.  Start from a state whose flag register is 0 (the initial value
of the global `flag_reg`).  In every state reached from it by any number of
`execute` steps the low nibble of `flag_reg` is 0.  Moreover, for every state,
`xor_b` .. `xor_l` and `xor_a` leave a flag register with low nibble 0, and
`cp_imm8` leaves the low nibble 0 whenever it was 0 before. -/
theorem flag_reg_low_nibble_stays_zero {M : Type} (B : Bus M) (s0 : State M)
    (h0 : s0.flag_reg = 0) :
    (∀ k s, run B k s0 = some s → s.flag_reg % 16 = 0) ∧
    (∀ s : State M,
      (xor_b B s).flag_reg % 16 = 0 ∧ (xor_c B s).flag_reg % 16 = 0 ∧
      (xor_d B s).flag_reg % 16 = 0 ∧ (xor_e B s).flag_reg % 16 = 0 ∧
      (xor_h B s).flag_reg % 16 = 0 ∧ (xor_l B s).flag_reg % 16 = 0 ∧
      (xor_a B s).flag_reg % 16 = 0) ∧
    (∀ s : State M, s.flag_reg % 16 = 0 → (cp_imm8 B s).flag_reg % 16 = 0) := by
  refine ⟨?_, ?_, ?_⟩
  · intro k s hr
    exact run_keeps_low_nibble B k s0 s (by rw [h0]) hr
  · intro s
    have hx : ∀ v : Nat, (xor_common v s).flag_reg % 16 = 0 := by
      intro v
      rcases xor_common_flag_reg v s with h | h <;> rw [h]
    exact ⟨hx _, hx _, hx _, hx _, hx _, hx _, by rw [xor_a_flag_reg]⟩
  · intro s hs
    rw [cp_imm8_low_nibble]
    exact hs

/-- Claim C11 at a concrete machine: `XOR A; CP 0x00; CP 0x01` from
`pc = 0x0100` over plain storage with `flag_reg = 0`; the three steps do run and
end with `flag_reg = 0x50`. -/
theorem flag_reg_low_nibble_stays_zero_witness :
    flags_example.flag_reg = 0 ∧
    ((∀ k s, run flatBus k flags_example = some s → s.flag_reg % 16 = 0) ∧
      (∀ s : State (Nat → Nat),
        (xor_b flatBus s).flag_reg % 16 = 0 ∧ (xor_c flatBus s).flag_reg % 16 = 0 ∧
        (xor_d flatBus s).flag_reg % 16 = 0 ∧ (xor_e flatBus s).flag_reg % 16 = 0 ∧
        (xor_h flatBus s).flag_reg % 16 = 0 ∧ (xor_l flatBus s).flag_reg % 16 = 0 ∧
        (xor_a flatBus s).flag_reg % 16 = 0) ∧
      (∀ s : State (Nat → Nat),
        s.flag_reg % 16 = 0 → (cp_imm8 flatBus s).flag_reg % 16 = 0)) ∧
    (run flatBus 3 flags_example).map State.flag_reg = some 0x50 :=
  ⟨by decide, flag_reg_low_nibble_stays_zero flatBus flags_example (by decide), by decide⟩

/-! ### Joypad -/

/-- Bitwise and commutes with reduction to the low 8 bits. -/
theorem and_mod_256 (x y : Nat) : (x &&& y) % 256 = (x % 256) &&& (y % 256) := by
  have h : (x &&& y) % 2 ^ 8 = (x % 2 ^ 8) &&& (y % 2 ^ 8) := by
    apply Nat.eq_of_testBit_eq
    intro i
    simp only [Nat.testBit_mod_two_pow, Nat.testBit_and]
    cases decide (i < 8) <;> simp
  simpa using h

/-- The row mask `key & 0xc0` is a byte. -/
theorem row_sel_lt (key : Nat) : key &&& 0xc0 < 256 :=
  Nat.lt_of_le_of_lt Nat.and_le_right (by decide)

/-- On bytes, exclusive-or with `0xFF` is the complement `255 - x`. -/
theorem xor_ff_pattern : ∀ x : Fin 256, 255 ^^^ x.val = 255 - x.val := by
  decide!

/-- The column test of `joypad_signal`, whose `col_sel` is a `uint8_t`, is the
test of `key >> 4` against a column byte. -/
theorem col_test (col key : Nat) (hcol : col < 256) :
    col &&& u8 (key >>> 4) = col &&& (key >>> 4) := by
  have h1 := and_mod_256 col (key >>> 4)
  have h2 : col &&& (key >>> 4) < 256 := Nat.lt_of_le_of_lt Nat.and_le_left hcol
  rw [Nat.mod_eq_of_lt h2, Nat.mod_eq_of_lt hcol] at h1
  rw [u8, h1]

/-- The statement `row_state &= ~row_sel` on bytes. -/
theorem row_clear (row rs : Nat) (hrow : row < 256) (hrs : rs < 256) :
    u8 (row &&& int_not (u8 rs)) = row &&& (255 ^^^ rs) := by
  have hx := xor_ff_pattern ⟨rs, hrs⟩
  simp only at hx
  have hn : int_not (u8 rs) % 256 = 255 - rs := by
    simp only [int_not, u8]
    omega
  rw [u8, and_mod_256, hn, Nat.mod_eq_of_lt hrow, hx]

/-- The statement `row_state |= row_sel` on bytes. -/
theorem row_set (row rs : Nat) (hrow : row < 256) (hrs : rs < 256) :
    u8 (row ||| u8 rs) = row ||| rs := by
  have h : row ||| rs < 2 ^ 8 := Nat.or_lt_two_pow hrow hrs
  have h256 : row ||| rs < 256 := h
  rw [u8, u8, Nat.mod_eq_of_lt hrs, Nat.mod_eq_of_lt h256]

/-- The byte `joypad_read` packs from what `joypad_write` stored. -/
theorem joypad_pack_pattern : ∀ d : Fin 256,
    u8 (((u8 d.val >>> 4) <<< 4) ||| (u8 d.val &&& 0xc0)) =
      ((d.val >>> 4) <<< 4) ||| (d.val &&& 0xc0) ∧
    ((d.val >>> 4) <<< 4) ||| (d.val &&& 0xc0) = d.val &&& 0xF0 := by
  decide!

/-- What `joypad_signal` does for a key of a selected column, on a joypad state
holding bytes: a press clears the key's row bits and nothing else; a release
sets them, clears `stop` and calls `signal_interrupt` once with `INT_JOYPAD`. -/
theorem joypad_signal_press_release {I : Type}
    (signal_interrupt : I → interrupt_source → I) (state : emu_state I) (key : Nat)
    (hcol : state.input_state.col_state < 256)
    (hrow : state.input_state.row_state < 256)
    (hsel : state.input_state.col_state &&& (key >>> 4) ≠ 0) :
    joypad_signal signal_interrupt state key true =
      { state with
        input_state := { state.input_state with
          row_state := state.input_state.row_state &&& (255 ^^^ (key &&& 0xC0)) } } ∧
    joypad_signal signal_interrupt state key false =
      { input_state := { state.input_state with
          row_state := state.input_state.row_state ||| (key &&& 0xC0) },
        stop := false,
        int_state := signal_interrupt state.int_state .INT_JOYPAD } := by
  have hc : ¬ (state.input_state.col_state &&& u8 (key >>> 4) = 0) := by
    rw [col_test _ _ hcol]
    exact hsel
  constructor
  · simp only [joypad_signal, if_neg hc, if_true, row_clear _ _ hrow (row_sel_lt key)]
  · simp only [joypad_signal, if_neg hc, Bool.false_eq_true, if_false,
      row_set _ _ hrow (row_sel_lt key)]

/-- Claim C12.  Let the joypad state hold bytes in `col_state` and `row_state`
and let `key >> 4` share a bit with `col_state`.  Then `joypad_signal(key,
pressed)` changes `row_state` to `row_state AND NOT (key AND 0xC0)`, calls
`signal_interrupt` not at all and leaves `col_state` and `stop` unchanged;
`joypad_signal(key, released)` changes `row_state` to `row_state OR (key AND
0xC0)`, calls `signal_interrupt` with `INT_JOYPAD` exactly once, sets `stop` to
false and leaves `col_state` unchanged.  In particular, from any state,
`joypad_write` of `0x20` succeeds, and for every key `k` of that column the
press leaves the interrupt controller alone and the release that follows ends
with `row_state` equal to the row bits of `k` and with exactly one call of
`signal_interrupt`, for `INT_JOYPAD`. -/
theorem joypad_signal_in_selected_column {I : Type}
    (signal_interrupt : I → interrupt_source → I) (state : emu_state I) (key : Nat)
    (hcol : state.input_state.col_state < 256)
    (hrow : state.input_state.row_state < 256)
    (hsel : state.input_state.col_state &&& (key >>> 4) ≠ 0) :
    ((joypad_signal signal_interrupt state key true).input_state.row_state =
        state.input_state.row_state &&& (255 ^^^ (key &&& 0xC0)) ∧
      (joypad_signal signal_interrupt state key true).input_state.col_state =
        state.input_state.col_state ∧
      (joypad_signal signal_interrupt state key true).stop = state.stop ∧
      (joypad_signal signal_interrupt state key true).int_state = state.int_state) ∧
    ((joypad_signal signal_interrupt state key false).input_state.row_state =
        state.input_state.row_state ||| (key &&& 0xC0) ∧
      (joypad_signal signal_interrupt state key false).input_state.col_state =
        state.input_state.col_state ∧
      (joypad_signal signal_interrupt state key false).stop = false ∧
      (joypad_signal signal_interrupt state key false).int_state =
        signal_interrupt state.int_state .INT_JOYPAD) ∧
    (∀ (s0 : emu_state I) (k : Nat), 2 &&& (k >>> 4) ≠ 0 →
      ∃ s1, joypad_write s0 0xFF00 0x20 = some s1 ∧
        (joypad_signal signal_interrupt s1 k true).int_state = s0.int_state ∧
        (joypad_signal signal_interrupt
          (joypad_signal signal_interrupt s1 k true) k false).input_state.row_state =
            k &&& 0xC0 ∧
        (joypad_signal signal_interrupt
          (joypad_signal signal_interrupt s1 k true) k false).int_state =
            signal_interrupt s0.int_state .INT_JOYPAD) := by
  have h := joypad_signal_press_release signal_interrupt state key hcol hrow hsel
  refine ⟨?_, ?_, ?_⟩
  · rw [h.1]
    exact ⟨rfl, rfl, rfl, rfl⟩
  · rw [h.2]
    exact ⟨rfl, rfl, rfl, rfl⟩
  · intro s0 k hk
    refine ⟨{ s0 with input_state := { col_state := 2, row_state := 0 } }, rfl, ?_⟩
    have h2lt : (2 : Nat) < 256 := by decide
    have h0lt : (0 : Nat) < 256 := by decide
    have hzlt : 0 &&& (255 ^^^ (k &&& 0xC0)) < 256 := by
      rw [Nat.zero_and]
      exact h0lt
    have h1 := joypad_signal_press_release signal_interrupt
      { s0 with input_state := { col_state := 2, row_state := 0 } } k h2lt h0lt hk
    rw [h1.1]
    have h2 := joypad_signal_press_release signal_interrupt
      { s0 with
        input_state := { col_state := 2, row_state := 0 &&& (255 ^^^ (k &&& 0xC0)) } } k
      h2lt hzlt hk
    refine ⟨rfl, ?_, ?_⟩
    · rw [h2.2]
      show 0 &&& (255 ^^^ (k &&& 0xC0)) ||| (k &&& 0xC0) = k &&& 0xC0
      rw [Nat.zero_and, Nat.zero_or]
    · rw [h2.2]

/-- Claim C12 at a concrete joypad: column byte `0x2` selected (as after
`joypad_write` of `0x20`), row byte 0, machine stopped, no interrupt signalled;
the key `0x60` (column bits `0x6`, row bit `0x40`) is pressed and released.  The
press leaves the row byte `0x00` and no interrupt; the release leaves the row
bit `0x40` set, exactly one `INT_JOYPAD` recorded, and the machine no longer
stopped. -/
theorem joypad_signal_in_selected_column_witness :
    (pad 2 0).input_state.col_state < 256 ∧
    (pad 2 0).input_state.row_state < 256 ∧
    (pad 2 0).input_state.col_state &&& (0x60 >>> 4) ≠ 0 ∧
    (((joypad_signal record_interrupt (pad 2 0) 0x60 true).input_state.row_state =
        (pad 2 0).input_state.row_state &&& (255 ^^^ (0x60 &&& 0xC0)) ∧
      (joypad_signal record_interrupt (pad 2 0) 0x60 true).input_state.col_state =
        (pad 2 0).input_state.col_state ∧
      (joypad_signal record_interrupt (pad 2 0) 0x60 true).stop = (pad 2 0).stop ∧
      (joypad_signal record_interrupt (pad 2 0) 0x60 true).int_state =
        (pad 2 0).int_state) ∧
    ((joypad_signal record_interrupt (pad 2 0) 0x60 false).input_state.row_state =
        (pad 2 0).input_state.row_state ||| (0x60 &&& 0xC0) ∧
      (joypad_signal record_interrupt (pad 2 0) 0x60 false).input_state.col_state =
        (pad 2 0).input_state.col_state ∧
      (joypad_signal record_interrupt (pad 2 0) 0x60 false).stop = false ∧
      (joypad_signal record_interrupt (pad 2 0) 0x60 false).int_state =
        record_interrupt (pad 2 0).int_state .INT_JOYPAD) ∧
    (∀ (s0 : emu_state (List interrupt_source)) (k : Nat), 2 &&& (k >>> 4) ≠ 0 →
      ∃ s1, joypad_write s0 0xFF00 0x20 = some s1 ∧
        (joypad_signal record_interrupt s1 k true).int_state = s0.int_state ∧
        (joypad_signal record_interrupt
          (joypad_signal record_interrupt s1 k true) k false).input_state.row_state =
            k &&& 0xC0 ∧
        (joypad_signal record_interrupt
          (joypad_signal record_interrupt s1 k true) k false).int_state =
            record_interrupt s0.int_state .INT_JOYPAD)) ∧
    (joypad_write (pad 0 0xC0) 0xFF00 0x20).map
        (fun s => (s.input_state, s.stop, s.int_state)) =
      some ((pad 2 0).input_state, true, []) ∧
    (joypad_signal record_interrupt (pad 2 0) 0x60 true).input_state.row_state = 0 ∧
    (joypad_signal record_interrupt (pad 2 0) 0x60 true).int_state = [] ∧
    (joypad_signal record_interrupt
        (joypad_signal record_interrupt (pad 2 0) 0x60 true) 0x60 false
      ).input_state.row_state = 0x40 ∧
    (joypad_signal record_interrupt
        (joypad_signal record_interrupt (pad 2 0) 0x60 true) 0x60 false
      ).int_state = [.INT_JOYPAD] ∧
    (joypad_signal record_interrupt
        (joypad_signal record_interrupt (pad 2 0) 0x60 true) 0x60 false
      ).stop = false :=
  ⟨by decide, by decide, by decide,
    joypad_signal_in_selected_column record_interrupt (pad 2 0) 0x60
      (by decide) (by decide) (by decide),
    by decide, by decide, by decide, by decide, by decide, by decide⟩

/-- Claim C13.  Let the joypad state hold a byte in `col_state` and let
`key >> 4` have no bit in common with `col_state`.  Then `joypad_signal(key,
down)` returns at once for either value of `down`: the whole state, with
`row_state`, `col_state`, `stop` and the interrupt controller, is as before, so
`signal_interrupt` was not called. -/
theorem joypad_signal_unsolicited_is_dropped {I : Type}
    (signal_interrupt : I → interrupt_source → I) (state : emu_state I) (key : Nat)
    (hcol : state.input_state.col_state < 256)
    (hsel : state.input_state.col_state &&& (key >>> 4) = 0) :
    ∀ down : Bool, joypad_signal signal_interrupt state key down = state := by
  intro down
  have hc : state.input_state.col_state &&& u8 (key >>> 4) = 0 := by
    rw [col_test _ _ hcol]
    exact hsel
  simp only [joypad_signal, if_pos hc]

/-- Claim C13 at a concrete joypad: column byte `0x1` selected, key `0x60`
(column bits `0x6`), row byte `0xC0`, machine stopped, nothing recorded. -/
theorem joypad_signal_unsolicited_is_dropped_witness :
    (pad 1 0xC0).input_state.col_state < 256 ∧
    (pad 1 0xC0).input_state.col_state &&& (0x60 >>> 4) = 0 ∧
    (∀ down : Bool, joypad_signal record_interrupt (pad 1 0xC0) 0x60 down = pad 1 0xC0) ∧
    (joypad_signal record_interrupt (pad 1 0xC0) 0x60 false).int_state = [] ∧
    (joypad_signal record_interrupt (pad 1 0xC0) 0x60 false).stop = true ∧
    (joypad_signal record_interrupt (pad 1 0xC0) 0x60 true).input_state.row_state = 0xC0 :=
  ⟨by decide, by decide,
    joypad_signal_unsolicited_is_dropped record_interrupt (pad 1 0xC0) 0x60
      (by decide) (by decide),
    by decide, by decide, by decide⟩

/-- Claim C14.  For every joypad state and every byte `d`, `joypad_write(0xFF00,
d)` succeeds and sets `col_state = d >> 4` and `row_state = d AND 0xC0`, leaving
`stop` and the interrupt controller alone; `joypad_read(0xFF00)` right after it
returns `(col_state << 4) OR row_state`, which equals `d AND 0xF0`, and leaves
the state it was called on.  Whenever `joypad_read` returns, the state is the
one it was called on. -/
theorem joypad_write_then_read {I : Type} (state : emu_state I) (d : Nat) (hd : d < 256) :
    ∃ s1, joypad_write state 0xFF00 d = some s1 ∧
      s1.input_state.col_state = d >>> 4 ∧
      s1.input_state.row_state = d &&& 0xC0 ∧
      s1.stop = state.stop ∧ s1.int_state = state.int_state ∧
      joypad_read s1 0xFF00 =
        some ((s1.input_state.col_state <<< 4) ||| s1.input_state.row_state, s1) ∧
      (s1.input_state.col_state <<< 4) ||| s1.input_state.row_state = d &&& 0xF0 ∧
      ∀ (s : emu_state I) (reg v : Nat) (s2 : emu_state I),
        joypad_read s reg = some (v, s2) → s2 = s := by
  have hp := joypad_pack_pattern ⟨d, hd⟩
  simp only at hp
  have hu : u8 d = d := Nat.mod_eq_of_lt hd
  rw [hu] at hp
  refine ⟨{ state with input_state := { col_state := d >>> 4, row_state := d &&& 0xC0 } },
    ?_, rfl, rfl, rfl, rfl, ?_, hp.2, ?_⟩
  · simp only [joypad_write, u16, hu]
    rfl
  · simp only [joypad_read, u16, hp.1]
    rfl
  · intro s reg v s2 hr
    simp only [joypad_read] at hr
    split_ifs at hr
    simp only [Option.some.injEq, Prod.mk.injEq] at hr
    exact hr.2.symm

/-- Claim C14 at a concrete joypad: the byte `0xFF` written to a zeroed joypad
state reads back as `0xF0`. -/
theorem joypad_write_then_read_witness :
    0xFF < 256 ∧
    (∃ s1, joypad_write (pad 0 0) 0xFF00 0xFF = some s1 ∧
      s1.input_state.col_state = 0xFF >>> 4 ∧
      s1.input_state.row_state = 0xFF &&& 0xC0 ∧
      s1.stop = (pad 0 0).stop ∧ s1.int_state = (pad 0 0).int_state ∧
      joypad_read s1 0xFF00 =
        some ((s1.input_state.col_state <<< 4) ||| s1.input_state.row_state, s1) ∧
      (s1.input_state.col_state <<< 4) ||| s1.input_state.row_state = 0xFF &&& 0xF0 ∧
      ∀ (s : emu_state (List interrupt_source)) (reg v : Nat)
        (s2 : emu_state (List interrupt_source)),
        joypad_read s reg = some (v, s2) → s2 = s) ∧
    ((joypad_write (pad 0 0) 0xFF00 0xFF).bind
        (fun s => (joypad_read s 0xFF00).map Prod.fst)) = some 0xF0 :=
  ⟨by decide, joypad_write_then_read (pad 0 0) 0xFF (by decide), by decide⟩

/-! ### Two toggles in a row -/

/-- A step that fetches DI or EI returns in the state `di` produces (the body of
`ei` is the same), after applying a toggle that was pending on entry. -/
theorem execute_di_ei {M : Type} (B : Bus M) (s : State M)
    (h : fetch B s = 0xF3 ∨ fetch B s = 0xFB) :
    execute B s = .returned true (apply_toggle s.toggle_int_on_next (di B s)) := by
  have he : ei B = di B := rfl
  rcases h with h | h
  · simp [execute, h, handlers]
  · simp [execute, h, handlers, he]

/-- What three steps do when the first two fetch DI or EI.  Start with no
toggle pending and let step 1 fetch DI (0xF3) or EI (0xFB); it returns.  If
step 2 again fetches DI or EI, it returns with the master-enable flag
`interrupts` flipped once with respect to its value before step 1 and with no
toggle pending: the toggle armed by step 2 is cleared in that same step.  If
step 3 then fetches any bound opcode other than DI/EI, it returns with
`interrupts` still flipped once and no toggle pending. -/
theorem di_ei_twice_flips_once {M : Type} (B : Bus M) (s0 : State M)
    (h0 : s0.toggle_int_on_next = false)
    (h1 : fetch B s0 = 0xF3 ∨ fetch B s0 = 0xFB) :
    ∃ s1, execute B s0 = .returned true s1 ∧
      ((fetch B s1 = 0xF3 ∨ fetch B s1 = 0xFB) →
        ∃ s2, execute B s1 = .returned true s2 ∧
          s2.interrupts = (!s0.interrupts) ∧ s2.toggle_int_on_next = false ∧
          ∀ hd, handlers B (fetch B s2) = some hd →
            fetch B s2 ≠ 0xF3 → fetch B s2 ≠ 0xFB →
            ∃ s3, execute B s2 = .returned true s3 ∧
              s3.interrupts = (!s0.interrupts) ∧ s3.toggle_int_on_next = false) := by
  have hs1 : execute B s0 = .returned true (di B s0) := by
    rw [execute_di_ei B s0 h1, h0]
    rfl
  refine ⟨di B s0, hs1, ?_⟩
  intro h2
  have hs2 : execute B (di B s0) =
      .returned true (apply_toggle true (di B (di B s0))) :=
    execute_di_ei B (di B s0) h2
  refine ⟨_, hs2, rfl, rfl, ?_⟩
  intro hd hb h3 h4
  have hk := handler_keeps_interrupt_state B _ hd hb h3 h4
    (apply_toggle true (di B (di B s0)))
  have hs3 : execute B (apply_toggle true (di B (di B s0))) =
      .returned true (hd (apply_toggle true (di B (di B s0)))) := by
    simp only [execute, hb]
    rfl
  exact ⟨_, hs3, hk.2, hk.1⟩

/-- Claim C15, evaluated on the code.  From `pc = 0x0100` with interrupts
enabled and no toggle pending, the three steps `DI; EI; NOP` (bytes `F3 FB 00`)
all return and leave `interrupts = false`, not the value `true` it had before
the first of them; no toggle is pending afterwards and `interrupts` is still
`false` after eight steps.  The tail of `execute` clears `toggle_int_on_next`
after the handler has run, so the arming done by the second instruction is
erased in the step that applies the first toggle.  `DI; DI; NOP` ends the same
way.  For every bus and state, two DI/EI steps in a row followed by a bound
step that is neither leave `interrupts` flipped exactly once. -/
theorem two_toggles_do_not_cancel :
    di_ei_example.toggle_int_on_next = false ∧ di_ei_example.interrupts = true ∧
    fetch flatBus di_ei_example = 0xF3 ∧
    (run flatBus 1 di_ei_example).map (fetch flatBus) = some 0xFB ∧
    (run flatBus 1 di_ei_example).map State.toggle_int_on_next = some true ∧
    (run flatBus 2 di_ei_example).map State.interrupts = some false ∧
    (run flatBus 2 di_ei_example).map State.toggle_int_on_next = some false ∧
    (run flatBus 2 di_ei_example).map (fetch flatBus) = some 0x00 ∧
    (run flatBus 3 di_ei_example).map State.interrupts = some false ∧
    (run flatBus 3 di_ei_example).map State.toggle_int_on_next = some false ∧
    (run flatBus 8 di_ei_example).map State.interrupts = some false ∧
    (run flatBus 1 di_di_example).map (fetch flatBus) = some 0xF3 ∧
    (run flatBus 3 di_di_example).map State.interrupts = some false ∧
    (∀ (M : Type) (B : Bus M) (s0 : State M),
      s0.toggle_int_on_next = false →
      (fetch B s0 = 0xF3 ∨ fetch B s0 = 0xFB) →
      ∃ s1, execute B s0 = .returned true s1 ∧
        ((fetch B s1 = 0xF3 ∨ fetch B s1 = 0xFB) →
          ∃ s2, execute B s1 = .returned true s2 ∧
            s2.interrupts = (!s0.interrupts) ∧ s2.toggle_int_on_next = false ∧
            ∀ hd, handlers B (fetch B s2) = some hd →
              fetch B s2 ≠ 0xF3 → fetch B s2 ≠ 0xFB →
              ∃ s3, execute B s2 = .returned true s3 ∧
                s3.interrupts = (!s0.interrupts) ∧
                s3.toggle_int_on_next = false)) := by
  repeat' apply And.intro
  all_goals first
    | decide
    | exact fun M B s0 h0 h1 => di_ei_twice_flips_once B s0 h0 h1

/-! ### Compare: signed ordering -/

/-- Claim C16, evaluated on the code.  With accumulator `0x80`, immediate `0x01`
and all flags clear, `cp_imm8` leaves `flag_reg = 0x50` (Subtract and Carry), not
`0x60` (Subtract and Half-Carry): `*a < cmp` compares two plain `char` objects,
so `0x80` counts as `-128`, below `1`.  For every bus and state with accumulator
`a` different from the immediate `n`, the code sets Subtract, clears Zero, and
adds Carry when `a` is below `n` in the signed order (patterns `0x80..0xFF`
before `0x00..0x7F`) and Half-Carry otherwise; the accumulator, the other
registers and the memory are unchanged and `pc` advances by 2. -/
theorem cp_imm8_compares_signed :
    (cp_imm8 flatBus cp_signed_example).flag_reg = 0x50 ∧
    (execute flatBus cp_signed_example).final.map State.flag_reg = some 0x50 ∧
    (∀ (M : Type) (B : Bus M) (s : State M),
      s.a ≠ mem_read8 B s.mem (s.pc + 1) →
      (cp_imm8 B s).flag_reg =
        (if (s.a + 128) % 256 < (mem_read8 B s.mem (s.pc + 1) + 128) % 256
          then (s.flag_reg % 256 &&& 0x7F) ||| 0x50
          else (s.flag_reg % 256 &&& 0x7F) ||| 0x60) ∧
      (cp_imm8 B s).a = s.a ∧ (cp_imm8 B s).pc = (s.pc + 2) % 65536) := by
  refine ⟨by decide, by decide, ?_⟩
  intro M B s hne
  refine ⟨?_, rfl, (cp_imm8_frame B s).2.2.2.2.2.1⟩
  rw [cp_imm8_flag_reg, if_neg hne]

/-! ### Exclusive-or with a register -/

/-- The body shared by `xor_b` .. `xor_l`, for an operand that is a byte. -/
theorem xor_common_post {M : Type} (r : Nat) (hr : r < 256) (s : State M) :
    xor_post r s (xor_common r s) := by
  have ha : s.a % 256 = s.a := by
    simp only [State.a, hi_byte]
    omega
  have hx : char_of_int (int_of_char s.a ^^^ int_of_char r) = s.a ^^^ r := by
    rw [xor_char, ha, Nat.mod_eq_of_lt hr]
  have hlt : s.a ^^^ r < 256 := by
    have h : s.a ^^^ r < 2 ^ 8 :=
      Nat.xor_lt_two_pow (Nat.lt_of_le_of_lt (Nat.le_of_eq ha.symm) (Nat.mod_lt _ (by decide))) hr
    exact h
  have hset : ∀ w v : Nat, v < 256 → hi_byte (set_hi w v) = v := by
    intro w v hv
    simp only [hi_byte, set_hi]
    omega
  have hnew : State.a (s.set_a (s.a ^^^ r)) = s.a ^^^ r := hset _ _ hlt
  have hz : int_of_char (s.a ^^^ r) = 0 ↔ s.a ^^^ r = 0 :=
    int_of_char_eq_iff (s.a ^^^ r) 0 hlt (by decide)
  have hst : xor_common r s =
      State.inc_pc
        (if s.a ^^^ r = 0 then
          { s.set_a (s.a ^^^ r) with flag_reg := 0x80 }
        else { s.set_a (s.a ^^^ r) with flag_reg := 0x00 }) := by
    simp only [xor_common, hx]
    have ha2 : State.a { s.set_a (s.a ^^^ r) with flag_reg := char_of_int 0 } =
        s.a ^^^ r := hnew
    rw [ha2]
    by_cases h0 : s.a ^^^ r = 0
    · rw [if_pos (hz.mpr h0), if_pos h0]
      rfl
    · rw [if_neg (fun h => h0 (hz.mp h)), if_neg h0]
      rfl
  have hkeep : ∀ w v : Nat, lo_byte (set_hi w v) = lo_byte w := by
    intro w v
    simp only [lo_byte, set_hi]
    omega
  have hf : State.f (s.set_a (s.a ^^^ r)) = s.f := hkeep _ _
  unfold xor_post
  rw [hst]
  by_cases h0 : s.a ^^^ r = 0
  · rw [if_pos h0, if_pos h0]
    exact ⟨hnew, rfl, hf, rfl, rfl, rfl, rfl, rfl, rfl, rfl, rfl⟩
  · rw [if_neg h0, if_neg h0]
    exact ⟨hnew, rfl, hf, rfl, rfl, rfl, rfl, rfl, rfl, rfl, rfl⟩

/-- Claim C17.  For every bus and state and each register operand `r` among `b`,
`c`, `d`, `e`, `h`, `l`, the handler `xor_r` leaves the accumulator equal to the
old accumulator XOR `r`, leaves `flag_reg` equal to `0x80` if that result is 0
and `0x00` otherwise whatever the prior flags, leaves `bc`, `de`, `hl` (hence
`r`), `sp`, the low byte of `af`, the toggle, the master-enable flag and the
memory unchanged, and advances `pc` by 1 modulo 2^16.  With accumulator `0x5A`,
`b = 0x5A`, `c = 0x0F` and `flag_reg = 0xF0`, `xor_b` leaves accumulator 0 and
`flag_reg = 0x80`, and `xor_c` leaves accumulator `0x55` and `flag_reg = 0x00`. -/
theorem xor_r_recomputes_accumulator_and_flags :
    (∀ (M : Type) (B : Bus M) (s : State M),
      xor_post s.b s (xor_b B s) ∧ xor_post s.c s (xor_c B s) ∧
      xor_post s.d s (xor_d B s) ∧ xor_post s.e s (xor_e B s) ∧
      xor_post s.h s (xor_h B s) ∧ xor_post s.l s (xor_l B s)) ∧
    (xor_b flatBus xor_example).a = 0x00 ∧
    (xor_b flatBus xor_example).flag_reg = 0x80 ∧
    (xor_c flatBus xor_example).a = 0x55 ∧
    (xor_c flatBus xor_example).flag_reg = 0x00 ∧
    (xor_c flatBus xor_example).bc = 0x5A0F ∧
    (execute flatBus xor_example).final.map State.pc = some 0x0101 := by
  refine ⟨?_, by decide, by decide, by decide, by decide, by decide, by decide⟩
  intro M B s
  have hhi : ∀ w : Nat, hi_byte w < 256 := by
    intro w
    simp only [hi_byte]
    omega
  have hlo : ∀ w : Nat, lo_byte w < 256 := by
    intro w
    simp only [lo_byte]
    omega
  exact ⟨xor_common_post _ (hhi _) s, xor_common_post _ (hlo _) s,
    xor_common_post _ (hhi _) s, xor_common_post _ (hlo _) s,
    xor_common_post _ (hhi _) s, xor_common_post _ (hlo _) s⟩

/-! ### The two flag stores -/

/-- Claim C18, evaluated on the code.  `flag_reg`, which the handlers write and
the conditional jumps test, is an object of its own, not the low byte of `af`
that `init_ctl` sets through `*f`.  After `init_ctl` on the initial globals the
low byte of `af` is `0xB0` (Zero set) but `flag_reg` is still `0x00`, so
`jr_z_imm8` at `pc = 0x0100` is not taken (`pc = 0x0102`) and `jr_nz_imm8` is;
`xor_a` then leaves `flag_reg = 0x80` while the low byte of `af` stays `0xB0`.
For every state, `init_ctl` leaves `flag_reg` as it was, and `xor_a`,
`xor_b` .. `xor_l` and `cp_imm8` leave the low byte of `af` as it was. -/
theorem flag_reg_is_not_low_byte_of_af :
    boot_example.f = 0xB0 ∧ boot_example.flag_reg = 0x00 ∧
    boot_example.pc = 0x0100 ∧
    (jr_z_imm8 flatBus boot_example).pc = 0x0102 ∧
    (jr_nz_imm8 flatBus boot_example).pc = 0x0105 ∧
    (xor_a flatBus boot_example).flag_reg = 0x80 ∧
    (xor_a flatBus boot_example).f = 0xB0 ∧
    (∀ (M : Type) (type : system_types) (s : State M),
      (init_ctl type s).flag_reg = s.flag_reg) ∧
    (∀ (M : Type) (B : Bus M) (s : State M),
      (xor_a B s).f = s.f ∧ (xor_b B s).f = s.f ∧ (xor_c B s).f = s.f ∧
      (xor_d B s).f = s.f ∧ (xor_e B s).f = s.f ∧ (xor_h B s).f = s.f ∧
      (xor_l B s).f = s.f ∧ (cp_imm8 B s).f = s.f) := by
  refine ⟨by decide, by decide, by decide, by decide, by decide, by decide, by decide,
    ?_, ?_⟩
  · intro M type s
    cases type <;> rfl
  · intro M B s
    have hkeep : ∀ w v : Nat, lo_byte (set_hi w v) = lo_byte w := by
      intro w v
      simp only [lo_byte, set_hi]
      omega
    have hx : ∀ v : Nat, (xor_common v s).f = s.f := by
      intro v
      simp only [xor_common, State.inc_pc]
      split_ifs <;> exact hkeep _ _
    exact ⟨hkeep _ _, hx _, hx _, hx _, hx _, hx _, hx _, rfl⟩

/-! ### Stores and loads -/

/-- Claim C19, evaluated on the code.  For every bus and state, with `lo` the
byte at `pc + 1` and `hi` the byte at `pc + 2`, `ld_d16_a` performs the one
write `mem_write8(loc, accumulator)`, changes no register or flag other than
`pc` and advances `pc` by 3 modulo 2^16; but `loc` is `hi * 256 + lo` only when
`lo < 0x80`, and `0xFF00 + lo` when `lo >= 0x80`, because `lsb` is a plain
`char`.  With the bytes `EA 80 C0` and accumulator `0x12`, the byte `0x12` lands
at `0xFF80` and the cell `0xC080` keeps its `0x00`. -/
theorem ld_d16_a_sign_extends_low_byte :
    (∀ (M : Type) (B : Bus M) (s : State M),
      (ld_d16_a B s).mem =
        mem_write8 B s.mem
          (if mem_read8 B s.mem (s.pc + 1) < 128
           then mem_read8 B s.mem (s.pc + 2) * 256 + mem_read8 B s.mem (s.pc + 1)
           else 0xFF00 + mem_read8 B s.mem (s.pc + 1))
          s.a ∧
      (ld_d16_a B s).af = s.af ∧ load_store_frame s (ld_d16_a B s) ∧
      (ld_d16_a B s).pc = (s.pc + 3) % 65536) ∧
    (ld_d16_a flatBus ld_d16_example).mem 0xFF80 = 0x12 ∧
    (ld_d16_a flatBus ld_d16_example).mem 0xC080 = 0x00 ∧
    ld_d16_example.mem 0xFF80 = 0x00 ∧
    (execute flatBus ld_d16_example).final.map (fun s => s.mem 0xC080) = some 0x00 := by
  refine ⟨?_, by decide, by decide, by decide, by decide⟩
  intro M B s
  have hp := imm16_pattern ⟨mem_read8 B s.mem (s.pc + 1), mem_read8_lt B _ _⟩
    ⟨mem_read8 B s.mem (s.pc + 2), mem_read8_lt B _ _⟩
  simp only at hp
  refine ⟨?_, rfl, ⟨rfl, rfl, rfl, rfl, rfl, rfl, rfl, rfl⟩, ?_⟩
  · simp only [ld_d16_a, State.inc_pc, mem_read8_u16, mem_read8_second_operand,
      char_of_int]
    rw [Nat.mod_eq_of_lt (mem_read8_lt B _ _), Nat.mod_eq_of_lt (mem_read8_lt B _ _), hp]
    rfl
  · simp only [ld_d16_a, State.inc_pc, u16]
    omega

/-- Claim C20.  For every bus and state, with `n` the operand byte at `pc + 1`:
`ldh_imm8_a` performs the one write `mem_write8(0xFF00 + n, accumulator)` and
changes no register or flag other than `pc`; `ldh_a_imm8` sets the accumulator
to `mem_read8(0xFF00 + n)`, leaves the memory and every other register and flag
unchanged; both advance `pc` by 2 modulo 2^16; and `0xFF00 + n` lies in
`0xFF00..0xFFFF`.  With operand `0x80` and accumulator `0x12`, `ldh_imm8_a`
stores `0x12` at `0xFF80`, and `ldh_a_imm8` loads the `0x34` stored there. -/
theorem ldh_uses_high_page_address :
    (∀ (M : Type) (B : Bus M) (s : State M),
      (ldh_imm8_a B s).mem =
        mem_write8 B s.mem (0xFF00 + mem_read8 B s.mem (s.pc + 1)) s.a ∧
      (ldh_imm8_a B s).af = s.af ∧ load_store_frame s (ldh_imm8_a B s) ∧
      (ldh_imm8_a B s).pc = (s.pc + 2) % 65536 ∧
      (ldh_a_imm8 B s).a =
        mem_read8 B s.mem (0xFF00 + mem_read8 B s.mem (s.pc + 1)) ∧
      (ldh_a_imm8 B s).mem = s.mem ∧ load_store_frame s (ldh_a_imm8 B s) ∧
      (ldh_a_imm8 B s).pc = (s.pc + 2) % 65536 ∧
      0xFF00 ≤ 0xFF00 + mem_read8 B s.mem (s.pc + 1) ∧
      0xFF00 + mem_read8 B s.mem (s.pc + 1) ≤ 0xFFFF) ∧
    (ldh_imm8_a flatBus (ldh_example 0xE0)).mem 0xFF80 = 0x12 ∧
    (ldh_a_imm8 flatBus (ldh_example 0xF0)).a = 0x34 ∧
    (execute flatBus (ldh_example 0xF0)).final.map State.pc = some 0x0102 := by
  refine ⟨?_, by decide, by decide, by decide⟩
  intro M B s
  have hn : mem_read8 B s.mem (s.pc + 1) < 256 := mem_read8_lt B _ _
  have hpc : ((s.pc + 1) % 65536 + 1) % 65536 = (s.pc + 2) % 65536 := by omega
  have hkeep : ∀ w v : Nat, lo_byte (set_hi w v) = lo_byte w := by
    intro w v
    simp only [lo_byte, set_hi]
    omega
  have hset : ∀ w v : Nat, v < 256 → hi_byte (set_hi w v) = v := by
    intro w v hv
    simp only [hi_byte, set_hi]
    omega
  refine ⟨?_, rfl, ⟨rfl, rfl, rfl, rfl, rfl, rfl, rfl, rfl⟩, ?_, ?_, rfl,
    ⟨hkeep _ _, rfl, rfl, rfl, rfl, rfl, rfl, rfl⟩, ?_, ?_, ?_⟩
  · simp only [ldh_imm8_a, State.inc_pc, mem_read8_u16, mem_write8]
    have ha : ∀ x : Nat, u16 (u16 (u16 x + 0xFF00)) = u16 (0xFF00 + x) := by
      intro x
      simp only [u16]
      omega
    rw [ha]
    rfl
  · simp only [ldh_imm8_a, State.inc_pc, u16]
    exact hpc
  · simp only [ldh_a_imm8, State.inc_pc, mem_read8_u16, State.a, State.set_a, char_of_int,
      u8]
    rw [Nat.mod_eq_of_lt hn, Nat.mod_eq_of_lt (mem_read8_lt B _ _)]
    exact hset _ _ (mem_read8_lt B _ _)
  · simp only [ldh_a_imm8, State.inc_pc, State.set_a, u16]
    exact hpc
  · omega
  · omega

end Theorems

end SGHerm
